import Mathlib

/-!
Shallow embedding of the sparse-roadmap construction and retrieval core of
the `ompl_bolt` library (files `SparseCriteria.cpp`, `BoltRetrieveRepair.cpp`,
`SparseGraph.h`), together with theorems settling the claims C1..C10.

Conventions used throughout:
* vertices are natural numbers (boost vertex descriptors);
* configuration-space states form an abstract type `α`; the state space
  oracle's `distance` is an explicit function `d : α → α → ℚ` and its
  `checkMotion` is `motion : α → α → Bool` (the oracle is an external
  collaborator of the library, see spec section 6);
* machine doubles are modelled by `ℚ` (the claims under study are about
  comparisons and bookkeeping, not rounding);
* the termination condition `ptc` is modelled as a fixed boolean for the
  duration of one call.

Operations whose implementation is not part of the provided sources
(`BoostGraphHeaders.h`, `SparseGraph.cpp`, `DenseCache.cpp`) are modelled
from the specification document and carry a doc comment starting with
"Modelled from the spec:".
-/

namespace Bolt

/-- Edge collision-checking states of a sparse edge (spec section 3,
`SparseEdge.collision`). -/
inductive CollisionState
  | notChecked
  | free
  | inCollision
deriving DecidableEq

/-- Reason a vertex was added to the sparse graph (spec section 3,
`SparseVertex.type`). -/
inductive VertexType
  | coverage
  | connectivity
  | interface
  | quality
  | discretized
deriving DecidableEq

/-- Reason an edge was added to the sparse graph (spec section 3,
`SparseEdge.type`). -/
inductive EdgeType
  | eConnectivity
  | eInterface
  | eQuality
  | eDiscretized
deriving DecidableEq

/-- Modelled from the spec: `InterfaceData` (section 3) stored at a vertex v
for a canonical pair (vp, vpp).  `interface1` is the optional
(inside, outside) witness pair discovered through the smaller-id neighbor,
`interface2` the pair discovered through the larger-id neighbor.  The
implementing header `BoostGraphHeaders.h` is not among the provided
sources. -/
structure InterfaceData (α : Type) where
  interface1 : Option (α × α)
  interface2 : Option (α × α)
deriving DecidableEq

/-- Modelled from the spec: `last_distance = ∞ if either side is absent,
else distance(interface1.inside, interface2.inside)` (spec section 3). -/
def InterfaceData.lastDistance {α : Type} (d : α → α → ℚ) (i : InterfaceData α) :
    WithTop ℚ :=
  match i.interface1, i.interface2 with
  | some p1, some p2 => (d p1.1 p2.1 : ℚ)
  | _, _ => ⊤

/-- Instrumented translation of `SparseCriteria::findGraphNeighbors`
(SparseCriteria.cpp lines 1936-1970).  Given the radius query result
`graphNeighborhood`, it returns the visible neighborhood together with a log
of every invocation of `DenseCache::checkMotionWithCache` (pairs of state
IDs handed to the cache, which consults the oracle on a miss).  A neighbor
whose state ID equals the candidate's is admitted without any check. -/
def findGraphNeighborsVis (candidateStateID : Nat) (stateID : Nat → Nat)
    (checkMotionWithCache : Nat → Nat → Bool) :
    List Nat → List Nat × List (Nat × Nat)
  | [] => ([], [])
  | v2 :: rest =>
    let r := findGraphNeighborsVis candidateStateID stateID checkMotionWithCache rest
    if candidateStateID ≠ stateID v2 then
      if checkMotionWithCache candidateStateID (stateID v2) then
        (v2 :: r.1, (candidateStateID, stateID v2) :: r.2)
      else
        (r.1, (candidateStateID, stateID v2) :: r.2)
    else
      (v2 :: r.1, r.2)

/-- C9: In construction-time neighbor finding, a neighbor whose StateID
equals the candidate's StateID is placed into the visible neighborhood
without any motion-validity check (neither the oracle nor the cache is
consulted), and a cached motion check is performed exactly for the
neighbors whose StateID differs from the candidate's. -/
theorem findGraphNeighbors_same_id_no_check (cand : Nat) (sid : Nat → Nat)
    (cc : Nat → Nat → Bool) (nbhd : List Nat) :
    (findGraphNeighborsVis cand sid cc nbhd).1
        = nbhd.filter (fun v2 => sid v2 == cand || cc cand (sid v2))
      ∧ (findGraphNeighborsVis cand sid cc nbhd).2
        = (nbhd.filter (fun v2 => sid v2 != cand)).map (fun v2 => (cand, sid v2)) := by
  induction nbhd with
  | nil => exact ⟨rfl, rfl⟩
  | cons v2 rest ih =>
    by_cases h : cand = sid v2
    · have h1 : (sid v2 == cand) = true := by simp [h]
      have h2 : (sid v2 != cand) = false := by simp [h]
      simp only [findGraphNeighborsVis, if_neg (by simp [h] : ¬ cand ≠ sid v2),
        List.filter_cons, h1, h2]
      simp [ih.1, ih.2]
    · have h1 : (sid v2 != cand) = true := by simp [Ne.symm h]
      by_cases hc : cc cand (sid v2)
      · simp only [findGraphNeighborsVis, if_pos h, if_pos hc, List.filter_cons, h1]
        simp [hc, ih.1, ih.2]
      · simp only [findGraphNeighborsVis, if_pos h, List.filter_cons, h1]
        rw [if_neg (by simp [hc])]
        simp [hc, show (sid v2 == cand) = false by simp [Ne.symm h], ih.1, ih.2]

/-! ### Random-sampling loop counters (claim C5) -/

/-- Configuration thresholds of the random-sampling loop
(`fourthCriteriaAfterFailures_` and `terminateAfterFailures_`,
SparseCriteria.h / spec section 4.4). -/
structure SamplerCfg where
  fourthCriteriaAfterFailures : Nat
  terminateAfterFailures : Nat
deriving DecidableEq

/-- Mutable loop state tracked by `SparseCriteria` across samples:
`numConsecutiveFailures_` and `useFourthCriteria_`. -/
structure SamplerState where
  numConsecutiveFailures : Nat
  useFourthCriteria : Bool
deriving DecidableEq

/-- Counter update performed inside `SparseCriteria::addStateToRoadmap`
(SparseCriteria.cpp lines 789-796): increment `numConsecutiveFailures_` when
no criterion accepted the candidate, reset it to zero on insertion. -/
def roadmapCounterUpdate (st : SamplerState) (stateAdded : Bool) : SamplerState :=
  if stateAdded then { st with numConsecutiveFailures := 0 }
  else { st with numConsecutiveFailures := st.numConsecutiveFailures + 1 }

/-- Translation of the failure-counter logic of `SparseCriteria::addSample`
(SparseCriteria.cpp lines 505-546).  The boolean argument `stateAdded` is
the result of `addStateToRoadmap` (whether some criterion inserted the
candidate); the returned boolean is `addSample`'s return value (`false`
stops the construction loop). -/
def addSample (cfg : SamplerCfg) (st : SamplerState) (stateAdded : Bool) :
    SamplerState × Bool :=
  let st1 := roadmapCounterUpdate st stateAdded
  let st2 :=
    if cfg.fourthCriteriaAfterFailures ≤ st1.numConsecutiveFailures
        ∧ st1.useFourthCriteria = false then
      { numConsecutiveFailures := 0, useFourthCriteria := true }
    else st1
  (st2,
    if st2.useFourthCriteria = true
        ∧ cfg.terminateAfterFailures < st2.numConsecutiveFailures then
      false
    else true)

/-- C5 counterexample: with `terminate_after_failures = 2` and the fourth
criterion already enabled, a rejection that brings the consecutive-failures
counter exactly to `terminate_after_failures` does NOT stop construction
(the code requires the counter to strictly exceed the threshold), refuting
the claim that construction stops when the counter reaches
`terminate_after_failures`. -/
theorem addSample_reaching_terminate_continues :
    (addSample ⟨1, 2⟩ ⟨1, true⟩ false).1.numConsecutiveFailures
        = (⟨1, 2⟩ : SamplerCfg).terminateAfterFailures
      ∧ (addSample ⟨1, 2⟩ ⟨1, true⟩ false).1.useFourthCriteria = true
      ∧ (addSample ⟨1, 2⟩ ⟨1, true⟩ false).2 = true := by
  decide

/-- C5 (amended): the consecutive-failures counter is incremented on every
rejected candidate and reset on every insertion; the fourth criterion
becomes enabled exactly when the (incremented) counter reaches
`fourth_criteria_after_failures` (the counter is then reset); and the loop
stops exactly when, with the fourth criterion enabled, the counter strictly
exceeds `terminate_after_failures`. -/
theorem addSample_counter_spec (cfg : SamplerCfg) (st : SamplerState) (b : Bool) :
    ((roadmapCounterUpdate st b).numConsecutiveFailures
        = if b then 0 else st.numConsecutiveFailures + 1)
      ∧ ((addSample cfg st b).1.useFourthCriteria
        = (st.useFourthCriteria
            || decide (cfg.fourthCriteriaAfterFailures
                ≤ (roadmapCounterUpdate st b).numConsecutiveFailures)))
      ∧ ((addSample cfg st b).2 = false
        ↔ (addSample cfg st b).1.useFourthCriteria = true
            ∧ cfg.terminateAfterFailures
              < (addSample cfg st b).1.numConsecutiveFailures) := by
  refine ⟨by cases b <;> rfl, ?_, ?_⟩
  · cases b with
    | false =>
      cases hu : st.useFourthCriteria with
      | false =>
        by_cases h : cfg.fourthCriteriaAfterFailures ≤ st.numConsecutiveFailures + 1 <;>
          simp [addSample, roadmapCounterUpdate, hu, h]
      | true => simp [addSample, roadmapCounterUpdate, hu]
    | true =>
      cases hu : st.useFourthCriteria with
      | false =>
        by_cases h : cfg.fourthCriteriaAfterFailures ≤ 0 <;>
          simp [addSample, roadmapCounterUpdate, hu, h]
      | true => simp [addSample, roadmapCounterUpdate, hu]
  · by_cases h2 : ((if cfg.fourthCriteriaAfterFailures
          ≤ (roadmapCounterUpdate st b).numConsecutiveFailures
          ∧ (roadmapCounterUpdate st b).useFourthCriteria = false then
        ({ numConsecutiveFailures := 0, useFourthCriteria := true } : SamplerState)
      else roadmapCounterUpdate st b).useFourthCriteria = true
        ∧ cfg.terminateAfterFailures
          < (if cfg.fourthCriteriaAfterFailures
                ≤ (roadmapCounterUpdate st b).numConsecutiveFailures
                ∧ (roadmapCounterUpdate st b).useFourthCriteria = false then
              ({ numConsecutiveFailures := 0, useFourthCriteria := true } : SamplerState)
            else roadmapCounterUpdate st b).numConsecutiveFailures)
    · simp only [addSample, if_pos h2]
      simpa using h2
    · simp only [addSample, if_neg h2]
      simpa using h2

/-! ### Lazy collision checking of retrieval (claims C10, C2, C6, C7) -/

/-- Canonical unordered key of a sparse edge between two vertices. -/
def ekey (u v : Nat) : Nat × Nat := (min u v, max u v)

/-- Assignment of collision states to (canonically keyed) sparse edges:
the `edgeCollisionStatePropertySparse_` property map of `SparseGraph`. -/
abbrev EMap := Nat × Nat → CollisionState

/-- Point update of the edge collision-state map. -/
def setEdge (m : EMap) (k : Nat × Nat) (c : CollisionState) : EMap :=
  fun k' => if k' = k then c else m k'

/-- Loop body of `BoltRetrieveRepair::lazyCollisionCheck`
(BoltRetrieveRepair.cpp lines 593-636): walk the vertex path edge by edge;
if the termination condition `ptc` holds, return `false` immediately; an
edge whose state is NOT_CHECKED is collision-checked with the oracle and
set to FREE or IN_COLLISION; an edge observed IN_COLLISION sets
`hasInvalidEdges` but the walk continues. -/
def lazyCheckGo (motion : Nat → Nat → Bool) (ptc : Bool) :
    Nat → List Nat → EMap → Bool → Bool × EMap
  | _, [], m, hasInvalid => (!hasInvalid, m)
  | fromV, toV :: rest, m, hasInvalid =>
    if ptc then (false, m)
    else
      let k := ekey fromV toV
      let m' :=
        if m k = CollisionState.notChecked then
          setEdge m k
            (if motion fromV toV then CollisionState.free
             else CollisionState.inCollision)
        else m
      lazyCheckGo motion ptc toV rest m'
        (hasInvalid || decide (m' k = CollisionState.inCollision))

/-- Translation of `BoltRetrieveRepair::lazyCollisionCheck`
(BoltRetrieveRepair.cpp lines 582-643), returning the function's boolean
result together with the updated edge collision-state map. -/
def lazyCollisionCheck (motion : Nat → Nat → Bool) (ptc : Bool)
    (vertexPath : List Nat) (m : EMap) : Bool × EMap :=
  match vertexPath with
  | [] => (true, m)
  | v :: rest => lazyCheckGo motion ptc v rest m false

/-- Canonical keys of the consecutive edges of a vertex path. -/
def pathKeys : List Nat → List (Nat × Nat)
  | [] => []
  | [_] => []
  | u :: v :: rest => ekey u v :: pathKeys (v :: rest)

theorem lazyCheckGo_mono (motion : Nat → Nat → Bool) (ptc : Bool) :
    ∀ (rest : List Nat) (fromV : Nat) (m : EMap) (h : Bool) (k : Nat × Nat),
      m k ≠ CollisionState.notChecked →
      (lazyCheckGo motion ptc fromV rest m h).2 k = m k := by
  intro rest
  induction rest with
  | nil => intro fromV m h k _; rfl
  | cons toV rest' ih =>
    intro fromV m h k hk
    by_cases hp : ptc = true
    · simp [lazyCheckGo, hp]
    · simp only [lazyCheckGo, if_neg hp]
      by_cases hm : m (ekey fromV toV) = CollisionState.notChecked
      · rw [if_pos hm]
        have hkk : k ≠ ekey fromV toV := by
          intro he; exact hk (he ▸ hm)
        have : setEdge m (ekey fromV toV)
            (if motion fromV toV then CollisionState.free
             else CollisionState.inCollision) k = m k := by
          simp [setEdge, hkk]
        rw [ih toV _ _ k (by rw [this]; exact hk), this]
      · rw [if_neg hm]
        exact ih toV _ _ k hk

theorem lazyCheckGo_step_ne (motion : Nat → Nat → Bool) (fromV toV : Nat)
    (m : EMap) :
    (if m (ekey fromV toV) = CollisionState.notChecked then
        setEdge m (ekey fromV toV)
          (if motion fromV toV then CollisionState.free
           else CollisionState.inCollision)
      else m) (ekey fromV toV) ≠ CollisionState.notChecked := by
  by_cases hm : m (ekey fromV toV) = CollisionState.notChecked
  · rw [if_pos hm]
    by_cases ho : motion fromV toV = true <;> simp [setEdge, ho]
  · rw [if_neg hm]; exact hm

theorem lazyCheckGo_result (motion : Nat → Nat → Bool) :
    ∀ (rest : List Nat) (fromV : Nat) (m : EMap) (h : Bool),
      (∀ k ∈ pathKeys (fromV :: rest),
          (lazyCheckGo motion false fromV rest m h).2 k ≠ CollisionState.notChecked)
        ∧ ((lazyCheckGo motion false fromV rest m h).1 = true
          ↔ h = false ∧ ∀ k ∈ pathKeys (fromV :: rest),
              (lazyCheckGo motion false fromV rest m h).2 k
                ≠ CollisionState.inCollision) := by
  intro rest
  induction rest with
  | nil =>
    intro fromV m h
    constructor
    · intro k hk; simp [pathKeys] at hk
    · cases h <;> simp [lazyCheckGo, pathKeys]
  | cons toV rest' ih =>
    intro fromV m h
    simp only [lazyCheckGo, if_neg (by simp : ¬ (false = true))]
    set m' := (if m (ekey fromV toV) = CollisionState.notChecked then
        setEdge m (ekey fromV toV)
          (if motion fromV toV then CollisionState.free
           else CollisionState.inCollision)
      else m) with hm'
    have hne : m' (ekey fromV toV) ≠ CollisionState.notChecked :=
      lazyCheckGo_step_ne motion fromV toV m
    have hfinal : (lazyCheckGo motion false toV rest' m'
        (h || decide (m' (ekey fromV toV) = CollisionState.inCollision))).2
          (ekey fromV toV) = m' (ekey fromV toV) :=
      lazyCheckGo_mono motion false rest' toV m' _ (ekey fromV toV) hne
    have hkeys : pathKeys (fromV :: toV :: rest')
        = ekey fromV toV :: pathKeys (toV :: rest') := rfl
    obtain ⟨ih1, ih2⟩ := ih toV m'
      (h || decide (m' (ekey fromV toV) = CollisionState.inCollision))
    constructor
    · intro k hk
      rw [hkeys] at hk
      rcases List.mem_cons.mp hk with hk | hk
      · rw [hk, hfinal]; exact hne
      · exact ih1 k hk
    · rw [ih2]
      constructor
      · rintro ⟨hor, hall⟩
        have h1 : h = false := by
          cases h <;> simp_all
        have h2 : ¬ (m' (ekey fromV toV) = CollisionState.inCollision) := by
          cases hc : decide (m' (ekey fromV toV) = CollisionState.inCollision) with
          | false => exact of_decide_eq_false hc
          | true => rw [hc] at hor; simp at hor
        refine ⟨h1, ?_⟩
        intro k hk
        rw [hkeys] at hk
        rcases List.mem_cons.mp hk with hk | hk
        · rw [hk, hfinal]; exact h2
        · exact hall k hk
      · rintro ⟨h1, hall⟩
        have h2 : (lazyCheckGo motion false toV rest' m'
            (h || decide (m' (ekey fromV toV) = CollisionState.inCollision))).2
              (ekey fromV toV) ≠ CollisionState.inCollision :=
          hall (ekey fromV toV) (by rw [hkeys]; exact List.mem_cons_self _ _)
        rw [hfinal] at h2
        refine ⟨?_, ?_⟩
        · simp [h1, h2]
        · intro k hk
          exact hall k (by rw [hkeys]; exact List.mem_cons_of_mem _ hk)

/-- C10: `lazyCollisionCheck` examines every consecutive edge of the input
vertex path even after an edge has been found IN_COLLISION; when the
termination condition does not trip, no edge of the path remains
NOT_CHECKED afterwards, and the function returns `true` exactly when no
edge of the path ends up IN_COLLISION. -/
theorem lazyCollisionCheck_full_scan (motion : Nat → Nat → Bool)
    (path : List Nat) (m : EMap) :
    (∀ k ∈ pathKeys path,
        (lazyCollisionCheck motion false path m).2 k ≠ CollisionState.notChecked)
      ∧ ((lazyCollisionCheck motion false path m).1 = true
        ↔ ∀ k ∈ pathKeys path,
            (lazyCollisionCheck motion false path m).2 k
              ≠ CollisionState.inCollision) := by
  match path with
  | [] =>
    constructor
    · intro k hk; simp [pathKeys] at hk
    · simp [lazyCollisionCheck, pathKeys]
  | v :: rest =>
    obtain ⟨h1, h2⟩ := lazyCheckGo_result motion rest v m false
    exact ⟨h1, by rw [show lazyCollisionCheck motion false (v :: rest) m
      = lazyCheckGo motion false v rest m false from rfl, h2]; simp⟩

/-- C10 witness: a concrete three-vertex path with a fresh collision map;
the second edge's final state is not NOT_CHECKED, by the theorem. -/
theorem lazyCollisionCheck_full_scan_witness :
    (lazyCollisionCheck (fun _ _ => true) false [0, 1, 2]
        (fun _ => CollisionState.notChecked)).2 (ekey 1 2)
      ≠ CollisionState.notChecked :=
  (lazyCollisionCheck_full_scan (fun _ _ => true) [0, 1, 2]
    (fun _ => CollisionState.notChecked)).1 (ekey 1 2) (by decide)

/-- Outcome of one `lazyCollisionSearch` call.  `fuelOut` is an artifact of
the fuel-bounded modelling of the C++ `while (true)` loop and corresponds
to no C++ behaviour. -/
inductive LSResult
  | success (vertexPath : List Nat) (m : EMap)
  | failure (m : EMap)
  | fuelOut (m : EMap)

def LSResult.isSuccess : LSResult → Bool
  | .success _ _ => true
  | _ => false

def LSResult.isFailure : LSResult → Bool
  | .failure _ => true
  | _ => false

def LSResult.path : LSResult → List Nat
  | .success p _ => p
  | _ => []

def LSResult.emap : LSResult → EMap
  | .success _ m => m
  | .failure m => m
  | .fuelOut m => m

/-- The `while (true)` loop of `BoltRetrieveRepair::lazyCollisionSearch`
(BoltRetrieveRepair.cpp lines 536-576): check the termination condition,
run A* on the graph with the current edge collision states (`astar` is the
`SparseGraph::astarSearch` call, whose implementation is outside the
provided sources; IN_COLLISION edges carry infinite weight, hence its
result depends on the collision map), lazily collision check the returned
path, and repeat until a valid path is found or A* fails. -/
def lazySearchLoop (astar : EMap → Option (List Nat))
    (motion : Nat → Nat → Bool) (ptc : Bool) : Nat → EMap → LSResult
  | 0, m => .fuelOut m
  | fuel + 1, m =>
    if ptc then .failure m
    else
      match astar m with
      | none => .failure m
      | some path =>
        let r := lazyCollisionCheck motion ptc path m
        if r.1 then .success path r.2
        else lazySearchLoop astar motion ptc fuel r.2

/-- Translation of `BoltRetrieveRepair::lazyCollisionSearch`
(BoltRetrieveRepair.cpp lines 477-580).  `sameComp` is the result of
`SparseGraph::sameComponent(start, goal)` (implementation outside the
provided sources). -/
def lazyCollisionSearch (astar : EMap → Option (List Nat))
    (motion : Nat → Nat → Bool) (ptc : Bool) (sameComp : Bool)
    (start goal : Nat) (fuel : Nat) (m : EMap) : LSResult :=
  if start = goal then .success [start] m
  else if sameComp = false then .failure m
  else lazySearchLoop astar motion ptc fuel m

theorem lazyCollisionCheck_mono (motion : Nat → Nat → Bool) (ptc : Bool)
    (path : List Nat) (m : EMap) (k : Nat × Nat)
    (hk : m k ≠ CollisionState.notChecked) :
    (lazyCollisionCheck motion ptc path m).2 k = m k := by
  match path with
  | [] => rfl
  | v :: rest => exact lazyCheckGo_mono motion ptc rest v m false k hk

theorem lazyCollisionCheck_pass_free (motion : Nat → Nat → Bool)
    (path : List Nat) (m : EMap)
    (h : (lazyCollisionCheck motion false path m).1 = true) :
    ∀ k ∈ pathKeys path,
      (lazyCollisionCheck motion false path m).2 k = CollisionState.free := by
  intro k hk
  obtain ⟨h1, h2⟩ := lazyCollisionCheck_full_scan motion path m
  have hnc := h1 k hk
  have hic := (h2.mp h) k hk
  cases hfin : (lazyCollisionCheck motion false path m).2 k with
  | notChecked => exact absurd hfin hnc
  | free => rfl
  | inCollision => exact absurd hfin hic

theorem lazySearchLoop_success (astar : EMap → Option (List Nat))
    (motion : Nat → Nat → Bool) :
    ∀ (fuel : Nat) (m : EMap),
      (lazySearchLoop astar motion false fuel m).isSuccess = true →
      (∀ k, m k ≠ CollisionState.notChecked →
          (lazySearchLoop astar motion false fuel m).emap k = m k)
        ∧ ∀ k ∈ pathKeys (lazySearchLoop astar motion false fuel m).path,
            (lazySearchLoop astar motion false fuel m).emap k
              = CollisionState.free := by
  intro fuel
  induction fuel with
  | zero => intro m h; simp [lazySearchLoop, LSResult.isSuccess] at h
  | succ fuel ih =>
    intro m h
    simp only [lazySearchLoop, if_neg (by simp : ¬ (false = true))] at h ⊢
    cases ha : astar m with
    | none => rw [ha] at h; simp [LSResult.isSuccess] at h
    | some path =>
      rw [ha] at h
      dsimp only at h ⊢
      by_cases hr : (lazyCollisionCheck motion false path m).1 = true
      · rw [if_pos hr] at h ⊢
        refine ⟨?_, ?_⟩
        · intro k hk
          exact lazyCollisionCheck_mono motion false path m k hk
        · intro k hk
          exact lazyCollisionCheck_pass_free motion path m hr k hk
      · rw [if_neg hr] at h ⊢
        obtain ⟨ih1, ih2⟩ := ih (lazyCollisionCheck motion false path m).2 h
        refine ⟨?_, ih2⟩
        intro k hk
        have hmid : (lazyCollisionCheck motion false path m).2 k = m k :=
          lazyCollisionCheck_mono motion false path m k hk
        rw [ih1 k (by rw [hmid]; exact hk), hmid]

theorem lazySearchLoop_ptc_no_success (astar : EMap → Option (List Nat))
    (motion : Nat → Nat → Bool) (fuel : Nat) (m : EMap) :
    (lazySearchLoop astar motion true fuel m).isSuccess = false := by
  cases fuel <;> simp [lazySearchLoop, LSResult.isSuccess]

/-- C2: whenever `lazyCollisionSearch` succeeds for a chosen entry/exit
pair, the lazy checking only ever wrote edges that were NOT_CHECKED (every
edge already FREE or IN_COLLISION keeps its state), and on the returned
vertex path every consecutive edge has collision state FREE in the final
map. -/
theorem lazyCollisionSearch_success_all_free (astar : EMap → Option (List Nat))
    (motion : Nat → Nat → Bool) (ptc : Bool) (sameComp : Bool)
    (start goal : Nat) (fuel : Nat) (m : EMap)
    (h : (lazyCollisionSearch astar motion ptc sameComp start goal fuel m).isSuccess
        = true) :
    (∀ k, m k ≠ CollisionState.notChecked →
        (lazyCollisionSearch astar motion ptc sameComp start goal fuel m).emap k
          = m k)
      ∧ ∀ k ∈ pathKeys
          (lazyCollisionSearch astar motion ptc sameComp start goal fuel m).path,
          (lazyCollisionSearch astar motion ptc sameComp start goal fuel m).emap k
            = CollisionState.free := by
  unfold lazyCollisionSearch at h ⊢
  by_cases hsg : start = goal
  · rw [if_pos hsg] at h ⊢
    refine ⟨fun k _ => rfl, ?_⟩
    intro k hk
    simp [LSResult.path, pathKeys] at hk
  · rw [if_neg hsg] at h ⊢
    by_cases hsc : sameComp = false
    · rw [if_pos hsc] at h; simp [LSResult.isSuccess] at h
    · rw [if_neg hsc] at h ⊢
      cases ptc with
      | false => exact lazySearchLoop_success astar motion fuel m h
      | true =>
        rw [lazySearchLoop_ptc_no_success astar motion fuel m] at h
        simp at h

/-- C2 witness: on a concrete three-vertex graph whose direct edge is in
collision, the search succeeds with the detour path and, by the theorem,
its first edge is FREE in the final collision map. -/
theorem lazyCollisionSearch_success_all_free_witness :
    (lazyCollisionSearch
        (fun m => if m (ekey 0 1) = CollisionState.inCollision
          then some [0, 2, 1] else some [0, 1])
        (fun u v => decide (ekey u v ≠ ekey 0 1)) false true 0 1 3
        (fun _ => CollisionState.notChecked)).emap (ekey 0 2)
      = CollisionState.free :=
  (lazyCollisionSearch_success_all_free
      (fun m => if m (ekey 0 1) = CollisionState.inCollision
        then some [0, 2, 1] else some [0, 1])
      (fun u v => decide (ekey u v ≠ ekey 0 1)) false true 0 1 3
      (fun _ => CollisionState.notChecked) rfl).2 (ekey 0 2) (by decide)

/-- Single-edge write step of the lazy collision check
(BoltRetrieveRepair.cpp lines 606-625): the only code in the provided
sources that writes `edgeCollisionStatePropertySparse_`.  An edge is
written only when its state is NOT_CHECKED, and it is set to FREE or
IN_COLLISION according to the oracle. -/
def lazyCheckEdgeStep (motion : Nat → Nat → Bool) (m : EMap) (uv : Nat × Nat) :
    EMap :=
  if m (ekey uv.1 uv.2) = CollisionState.notChecked then
    setEdge m (ekey uv.1 uv.2)
      (if motion uv.1 uv.2 then CollisionState.free
       else CollisionState.inCollision)
  else m

/-- Evolution of the edge collision-state map along a retrieval session:
a sequence of single-edge lazy checks. -/
def runChecks (motion : Nat → Nat → Bool) (m : EMap) :
    List (Nat × Nat) → EMap
  | [] => m
  | uv :: ops => runChecks motion (lazyCheckEdgeStep motion m uv) ops

theorem lazyCheckEdgeStep_cases (motion : Nat → Nat → Bool) (m : EMap)
    (uv : Nat × Nat) (k : Nat × Nat) :
    lazyCheckEdgeStep motion m uv k = m k
      ∨ (m k = CollisionState.notChecked
          ∧ lazyCheckEdgeStep motion m uv k ≠ CollisionState.notChecked) := by
  unfold lazyCheckEdgeStep
  by_cases hm : m (ekey uv.1 uv.2) = CollisionState.notChecked
  · rw [if_pos hm]
    by_cases hk : k = ekey uv.1 uv.2
    · subst hk
      right
      refine ⟨hm, ?_⟩
      by_cases ho : motion uv.1 uv.2 = true <;> simp [setEdge, ho]
    · left; simp [setEdge, hk]
  · left; rw [if_neg hm]

theorem runChecks_frozen (motion : Nat → Nat → Bool) :
    ∀ (ops : List (Nat × Nat)) (m : EMap) (k : Nat × Nat),
      m k ≠ CollisionState.notChecked → runChecks motion m ops k = m k := by
  intro ops
  induction ops with
  | nil => intro m k _; rfl
  | cons uv ops ih =>
    intro m k hk
    rcases lazyCheckEdgeStep_cases motion m uv k with hstep | ⟨hnc, _⟩
    · rw [runChecks, ih _ k (by rw [hstep]; exact hk), hstep]
    · exact absurd hnc hk

/-- C6: along any sequence of retrieval-time lazy edge checks (the only
writers of edge collision state in the provided sources), each edge's
collision state changes at most once, the change being NOT_CHECKED → FREE
or NOT_CHECKED → IN_COLLISION; in particular an edge that is FREE or
IN_COLLISION never changes again, so no FREE ↔ IN_COLLISION transition
ever occurs. -/
theorem edgeCollision_transition_discipline (motion : Nat → Nat → Bool)
    (ops : List (Nat × Nat)) (m : EMap) (k : Nat × Nat) :
    (m k ≠ CollisionState.notChecked → runChecks motion m ops k = m k)
      ∧ (runChecks motion m ops k = m k
        ∨ (m k = CollisionState.notChecked
            ∧ (runChecks motion m ops k = CollisionState.free
              ∨ runChecks motion m ops k = CollisionState.inCollision)))
      ∧ ∀ l1 l2 : List (Nat × Nat), ops = l1 ++ l2 →
          runChecks motion m l1 k ≠ CollisionState.notChecked →
          runChecks motion m ops k = runChecks motion m l1 k := by
  refine ⟨runChecks_frozen motion ops m k, ?_, ?_⟩
  · induction ops generalizing m with
    | nil => left; rfl
    | cons uv ops ih =>
      rcases lazyCheckEdgeStep_cases motion m uv k with hstep | ⟨hnc, hch⟩
      · rcases ih (lazyCheckEdgeStep motion m uv) with h | ⟨h1, h2⟩
        · left; rw [runChecks, h, hstep]
        · right
          rw [hstep] at h1
          exact ⟨h1, h2⟩
      · right
        refine ⟨hnc, ?_⟩
        have hfin : runChecks motion (lazyCheckEdgeStep motion m uv) ops k
            = lazyCheckEdgeStep motion m uv k :=
          runChecks_frozen motion ops _ k hch
        rw [runChecks, hfin]
        cases hc : lazyCheckEdgeStep motion m uv k with
        | notChecked => exact absurd hc hch
        | free => left; rfl
        | inCollision => right; rfl
  · intro l1 l2 hsplit h1
    subst hsplit
    have happ : ∀ (a b : List (Nat × Nat)) (m0 : EMap),
        runChecks motion m0 (a ++ b) = runChecks motion (runChecks motion m0 a) b := by
      intro a
      induction a with
      | nil => intro b m0; rfl
      | cons uv a iha => intro b m0; rw [List.cons_append, runChecks, runChecks, iha]
    rw [happ l1 l2 m]
    exact runChecks_frozen motion l2 _ k h1

/-- C6 witness: a concrete trace in which the edge (0,1) is checked twice;
after it became IN_COLLISION on the first check, the second check leaves it
unchanged, by the theorem. -/
theorem edgeCollision_transition_discipline_witness :
    runChecks (fun _ _ => false) (fun _ => CollisionState.notChecked)
        ([(0, 1)] ++ [(0, 1)]) (ekey 0 1)
      = runChecks (fun _ _ => false) (fun _ => CollisionState.notChecked)
        [(0, 1)] (ekey 0 1) :=
  (edgeCollision_transition_discipline (fun _ _ => false)
      ([(0, 1)] ++ [(0, 1)]) (fun _ => CollisionState.notChecked)
      (ekey 0 1)).2.2 [(0, 1)] [(0, 1)] rfl (by decide)

/-- External collaborators and configuration of one
`BoltRetrieveRepair::getPathOnGraph` call.  `astar s g` is
`SparseGraph::astarSearch` between the candidate pair, `sameComp` is
`SparseGraph::sameComponent`, `visStart`/`visGoal` are the oracle's
`checkMotion` from the actual start/goal state to a candidate vertex, and
`samePtrStart`/`samePtrGoal` model the pointer comparisons
`actualStart == getVertexState(start)` resp. goal. -/
structure RetrievalEnv where
  astar : Nat → Nat → EMap → Option (List Nat)
  motion : Nat → Nat → Bool
  ptc : Bool
  sameComp : Nat → Nat → Bool
  visStart : Nat → Bool
  visGoal : Nat → Bool
  samePtrStart : Nat → Bool
  samePtrGoal : Nat → Bool
  fuel : Nat

/-- Outcome of `BoltRetrieveRepair::getPathOnGraph`.  `fatal` models the
`exit(-1)` calls; `disconnected` is the failure mode the specification
describes for the entry-and-exit-but-no-path situation — the code model
never produces it.  `goalFailed`/`startFailed` are the `return false`
outcomes together with the `feedbackStartFailed` flag. -/
inductive GPOutcome
  | found (path : List Nat) (m : EMap)
  | timeout (m : EMap)
  | fatal (m : EMap)
  | disconnected (m : EMap)
  | goalFailed (m : EMap)
  | startFailed (m : EMap)
  | fuelOut (m : EMap)

def GPOutcome.isFatal : GPOutcome → Bool
  | .fatal _ => true
  | _ => false

def GPOutcome.isDisconnected : GPOutcome → Bool
  | .disconnected _ => true
  | _ => false

/-- Intermediate result of the inner (goal) loop: either an early return
out of `getPathOnGraph`, or continue the outer loop with the threaded
collision map and the accumulated `foundValidGoal` flag. -/
inductive GoalLoopRes
  | done (o : GPOutcome)
  | cont (m : EMap) (foundGoal : Bool)

/-- Inner loop of `BoltRetrieveRepair::getPathOnGraph`
(BoltRetrieveRepair.cpp lines 400-454): for each candidate goal, skip the
same-pointer case (line 402: error, continue), return on the termination
condition (line 412), skip invisible goals (line 419), record
`foundValidGoal`, and run `lazyCollisionSearch`. -/
def gpGoalLoop (env : RetrievalEnv) (start : Nat) :
    List Nat → EMap → Bool → GoalLoopRes
  | [], m, fg => .cont m fg
  | goal :: rest, m, fg =>
    if env.samePtrGoal goal then gpGoalLoop env start rest m fg
    else if env.ptc then .done (.timeout m)
    else if env.visGoal goal = false then gpGoalLoop env start rest m fg
    else
      match lazyCollisionSearch (env.astar start goal) env.motion env.ptc
          (env.sameComp start goal) start goal env.fuel m with
      | .success p m' => .done (.found p m')
      | .failure m' => gpGoalLoop env start rest m' true
      | .fuelOut m' => .done (.fuelOut m')

/-- Outer loop of `BoltRetrieveRepair::getPathOnGraph`
(BoltRetrieveRepair.cpp lines 373-474): for each candidate start, the
same-pointer case hits `exit(-1)` (line 378), invisible starts are
skipped, and after the loops the function hits `exit(-1)` when both a
valid start and a valid goal were found but no path (lines 457-461),
otherwise reports which endpoint failed. -/
def gpStartLoop (env : RetrievalEnv) (goals : List Nat) :
    List Nat → EMap → Bool → Bool → GPOutcome
  | [], m, fs, fg =>
    if fs && fg then .fatal m
    else if fs && !fg then .goalFailed m
    else .startFailed m
  | start :: rest, m, fs, fg =>
    if env.samePtrStart start then .fatal m
    else if env.visStart start = false then gpStartLoop env goals rest m fs fg
    else
      match gpGoalLoop env start goals m fg with
      | .done o => o
      | .cont m' fg' => gpStartLoop env goals rest m' true fg'

/-- Translation of `BoltRetrieveRepair::getPathOnGraph`
(BoltRetrieveRepair.cpp lines 363-475). -/
def getPathOnGraph (env : RetrievalEnv) (candStarts candGoals : List Nat)
    (m : EMap) : GPOutcome :=
  gpStartLoop env candGoals candStarts m false false

/-- C7 counterexample: one visible candidate start (vertex 10), one visible
candidate goal (vertex 11), in different connected components, no
termination condition.  Retrieval found an entry and an exit but no pair
yields a path; the code hits `exit(-1)` (modelled `fatal`) instead of
returning the `Disconnected` failure mode to the caller. -/
theorem getPathOnGraph_no_disconnected_counterexample :
    (RetrievalEnv.visStart
        ⟨fun _ _ _ => none, fun _ _ => true, false, fun _ _ => false,
          fun v => v == 10, fun v => v == 11, fun _ => false, fun _ => false, 1⟩ 10
      = true)
    ∧ (RetrievalEnv.visGoal
        ⟨fun _ _ _ => none, fun _ _ => true, false, fun _ _ => false,
          fun v => v == 10, fun v => v == 11, fun _ => false, fun _ => false, 1⟩ 11
      = true)
    ∧ (getPathOnGraph
        ⟨fun _ _ _ => none, fun _ _ => true, false, fun _ _ => false,
          fun v => v == 10, fun v => v == 11, fun _ => false, fun _ => false, 1⟩
        [10] [11] (fun _ => CollisionState.notChecked)).isFatal = true
    ∧ (getPathOnGraph
        ⟨fun _ _ _ => none, fun _ _ => true, false, fun _ _ => false,
          fun v => v == 10, fun v => v == 11, fun _ => false, fun _ => false, 1⟩
        [10] [11] (fun _ => CollisionState.notChecked)).isDisconnected = false := by
  refine ⟨rfl, rfl, rfl, rfl⟩

theorem gpGoalLoop_all_fail (env : RetrievalEnv) (start : Nat)
    (hptc : env.ptc = false)
    (hpg : ∀ g, env.samePtrGoal g = false) :
    ∀ (goals : List Nat) (m : EMap) (fg : Bool),
      (∀ g ∈ goals, ∀ m' : EMap,
        (lazyCollisionSearch (env.astar start g) env.motion env.ptc
          (env.sameComp start g) start g env.fuel m').isFailure = true) →
      ∃ m', gpGoalLoop env start goals m fg
        = .cont m' (fg || goals.any env.visGoal) := by
  intro goals
  induction goals with
  | nil => intro m fg _; exact ⟨m, by simp [gpGoalLoop]⟩
  | cons goal rest ih =>
    intro m fg hfail
    have hrest : ∀ g ∈ rest, ∀ m' : EMap,
        (lazyCollisionSearch (env.astar start g) env.motion env.ptc
          (env.sameComp start g) start g env.fuel m').isFailure = true :=
      fun g hgm => hfail g (List.mem_cons_of_mem _ hgm)
    simp only [gpGoalLoop, hpg goal, hptc, if_neg (by simp : ¬ (false = true)),
      Bool.false_eq_true, if_false]
    cases hv : env.visGoal goal with
    | false =>
      rw [if_pos rfl]
      obtain ⟨m', hm'⟩ := ih m fg hrest
      exact ⟨m', by rw [hm']; simp [hv]⟩
    | true =>
      rw [if_neg (by simp)]
      have hthis := hfail goal (List.mem_cons_self _ _) m
      rw [hptc] at hthis
      cases hres : lazyCollisionSearch (env.astar start goal) env.motion false
          (env.sameComp start goal) start goal env.fuel m with
      | success p m2 => rw [hres] at hthis; simp [LSResult.isFailure] at hthis
      | fuelOut m2 => rw [hres] at hthis; simp [LSResult.isFailure] at hthis
      | failure m2 =>
        obtain ⟨m', hm'⟩ := ih m2 true hrest
        exact ⟨m', by dsimp only; rw [hm']; simp [hv]⟩

theorem gpStartLoop_all_fail (env : RetrievalEnv) (goals : List Nat)
    (hptc : env.ptc = false)
    (hps : ∀ s, env.samePtrStart s = false)
    (hpg : ∀ g, env.samePtrGoal g = false) :
    ∀ (starts : List Nat) (m : EMap) (fs fg : Bool),
      (∀ s ∈ starts, ∀ g ∈ goals, ∀ m' : EMap,
        (lazyCollisionSearch (env.astar s g) env.motion env.ptc
          (env.sameComp s g) s g env.fuel m').isFailure = true) →
      (fs || starts.any env.visStart) = true →
      (fg || (starts.any env.visStart && goals.any env.visGoal)) = true →
      (gpStartLoop env goals starts m fs fg).isFatal = true := by
  intro starts
  induction starts with
  | nil =>
    intro m fs fg _ h1 h2
    simp at h1 h2
    simp [gpStartLoop, h1, h2, GPOutcome.isFatal]
  | cons start rest ih =>
    intro m fs fg hfail h1 h2
    have hrest : ∀ s ∈ rest, ∀ g ∈ goals, ∀ m' : EMap,
        (lazyCollisionSearch (env.astar s g) env.motion env.ptc
          (env.sameComp s g) s g env.fuel m').isFailure = true :=
      fun s hsm => hfail s (List.mem_cons_of_mem _ hsm)
    simp only [gpStartLoop, hps start, Bool.false_eq_true, if_false]
    cases hv : env.visStart start with
    | false =>
      rw [if_pos rfl]
      refine ih m fs fg hrest ?_ ?_
      · simpa [hv] using h1
      · simpa [hv] using h2
    | true =>
      rw [if_neg (by simp)]
      obtain ⟨m', hm'⟩ := gpGoalLoop_all_fail env start hptc hpg goals m fg
        (hfail start (List.mem_cons_self _ _))
      rw [hm']
      refine ih m' true (fg || goals.any env.visGoal) hrest (by simp) ?_
      have h2' : (fg || goals.any env.visGoal) = true := by
        simpa [hv] using h2
      simp [h2']

/-- C7 (amended): when retrieval finds at least one visible candidate start
and at least one visible candidate goal but every candidate pair's lazy
search fails, `getPathOnGraph` does not return a `Disconnected` failure
mode to the caller — it terminates the process via `exit(-1)` (modelled as
the `fatal` outcome).  The graph structure is not modified (retrieval only
threads the edge collision-state annotations). -/
theorem getPathOnGraph_entry_exit_no_path_fatal (env : RetrievalEnv)
    (candStarts candGoals : List Nat) (m : EMap)
    (hptc : env.ptc = false)
    (hps : ∀ s, env.samePtrStart s = false)
    (hpg : ∀ g, env.samePtrGoal g = false)
    (hfail : ∀ s ∈ candStarts, ∀ g ∈ candGoals, ∀ m' : EMap,
      (lazyCollisionSearch (env.astar s g) env.motion env.ptc
        (env.sameComp s g) s g env.fuel m').isFailure = true)
    (hs : candStarts.any env.visStart = true)
    (hg : candGoals.any env.visGoal = true) :
    (getPathOnGraph env candStarts candGoals m).isFatal = true
      ∧ (getPathOnGraph env candStarts candGoals m).isDisconnected = false := by
  have hfatal : (gpStartLoop env candGoals candStarts m false false).isFatal = true :=
    gpStartLoop_all_fail env candGoals hptc hps hpg candStarts m false false
      hfail (by simp [hs]) (by simp [hs, hg])
  refine ⟨hfatal, ?_⟩
  rw [getPathOnGraph]
  cases hres : gpStartLoop env candGoals candStarts m false false with
  | found p m' => rfl
  | timeout m' => rfl
  | fatal m' => rfl
  | disconnected m' => rw [hres] at hfatal; simp [GPOutcome.isFatal] at hfatal
  | goalFailed m' => rfl
  | startFailed m' => rfl
  | fuelOut m' => rfl

/-- C7 witness for the amended theorem: the concrete disconnected
configuration of the counterexample satisfies all hypotheses, and the
outcome is fatal. -/
theorem getPathOnGraph_entry_exit_no_path_fatal_witness :
    (getPathOnGraph
        ⟨fun _ _ _ => none, fun _ _ => true, false, fun _ _ => false,
          fun v => v == 10, fun v => v == 11, fun _ => false, fun _ => false, 1⟩
        [10] [11] (fun _ => CollisionState.notChecked)).isFatal = true :=
  (getPathOnGraph_entry_exit_no_path_fatal
    ⟨fun _ _ _ => none, fun _ _ => true, false, fun _ _ => false,
      fun v => v == 10, fun v => v == 11, fun _ => false, fun _ => false, 1⟩
    [10] [11] (fun _ => CollisionState.notChecked) rfl (fun _ => rfl) (fun _ => rfl)
    (by
      intro s hsm g hgm m'
      have hs10 : s = 10 := by simpa using hsm
      have hg11 : g = 11 := by simpa using hgm
      subst hs10; subst hg11
      rfl)
    rfl rfl).1

/-! ### Quality criterion: spanner test and pair-point bookkeeping
(claims C1, C8) -/

/-- Graph context of the spanner test: the undirected edge list, vertex
states, and the per-vertex interface table (keyed by the canonical
vertex pair). -/
structure SpanEnv (α : Type) where
  edges : List (Nat × Nat)
  vstate : Nat → α
  idata : Nat → Nat × Nat → InterfaceData α

/-- Undirected edge test (`SparseGraph::hasEdge`). -/
def SpanEnv.hasEdge {α : Type} (e : SpanEnv α) (u v : Nat) : Bool :=
  e.edges.any (fun p =>
    (decide (p.1 = u) && decide (p.2 = v)) || (decide (p.1 = v) && decide (p.2 = u)))

/-- Neighbors of a vertex (`boost::adjacent_vertices`), in edge-list
order. -/
def SpanEnv.adjacentVerts {α : Type} (e : SpanEnv α) (v : Nat) : List Nat :=
  e.edges.filterMap (fun p =>
    if p.1 = v then some p.2 else if p.2 = v then some p.1 else none)

/-- Modelled from the spec: the interface-table key `(vp, vpp)` is always
rewritten to `(min, max)` (spec section 4.3;
`SparseGraph::interfaceDataIndex`, whose implementation is outside the
provided sources). -/
def interfaceDataIndex (vp vpp : Nat) : Nat × Nat := (min vp vpp, max vp vpp)

/-- `SparseGraph::getInterfaceData(v, vp, vpp)`: the interface record of v
for the canonically ordered pair. -/
def SpanEnv.getInterfaceData {α : Type} (e : SpanEnv α) (v vp vpp : Nat) :
    InterfaceData α :=
  e.idata v (interfaceDataIndex vp vpp)

/-- Translation of `SparseCriteria::maxSpannerPath` (SparseCriteria.cpp
lines 1786-1853): collect the qualified vertices x (adjacent to vpp, with
an edge to v, no edge to vp, and a stored pair of points supporting the
interface on the side matching the canonical ordering), always add vpp,
and fold the midpoint distances keeping the largest, starting from 0. -/
def maxSpannerPath {α : Type} (d : α → α → ℚ) (e : SpanEnv α)
    (v vp vpp : Nat) : ℚ :=
  let qualifiedVertices :=
    ((e.adjacentVerts vpp).filter (fun x =>
        e.hasEdge x v && !e.hasEdge x vp
          && ((decide (vpp < x) && (e.getInterfaceData v vpp x).interface1.isSome)
            || (decide (x < vpp) && (e.getInterfaceData v vpp x).interface2.isSome))))
      ++ [vpp]
  qualifiedVertices.foldl
    (fun maxDist x =>
      if maxDist < (d (e.vstate vp) (e.vstate v) + d (e.vstate v) (e.vstate x)) / 2
      then (d (e.vstate vp) (e.vstate v) + d (e.vstate v) (e.vstate x)) / 2
      else maxDist)
    0

/-- Translation of `SparseCriteria::spannerTestOriginal` (SparseCriteria.cpp
lines 1447-1475): the spanner property is violated iff
`stretchFactor * iData.lastDistance < maxSpannerPath` (an absent interface
gives `lastDistance = ∞`, and the product with the positive stretch factor
stays ∞, so the comparison is false, as with IEEE doubles). -/
def spannerTestOriginal {α : Type} (d : α → α → ℚ) (stretchFactor : ℚ)
    (e : SpanEnv α) (v vp vpp : Nat) (iData : InterfaceData α) : Bool :=
  decide (WithTop.map (fun q => stretchFactor * q) (iData.lastDistance d)
    < (maxSpannerPath d e v vp vpp : WithTop ℚ))

/-- Midpoint path written from the claim: the maximum over the qualified
vertices x — v'' itself together with every x adjacent to v'' having an
edge to v, no edge to v', and a populated inside point on the side
matching the canonical ordering — of `(dist(v',v) + dist(v,x)) / 2`. -/
def maxSpannerPathSpec {α : Type} (d : α → α → ℚ) (e : SpanEnv α)
    (v vp vpp : Nat) : ℚ :=
  ((e.adjacentVerts vpp).filter (fun x =>
      e.hasEdge x v && !e.hasEdge x vp
        && ((decide (vpp < x) && (e.getInterfaceData v vpp x).interface1.isSome)
          || (decide (x < vpp) && (e.getInterfaceData v vpp x).interface2.isSome)))).foldl
    (fun m x => max m ((d (e.vstate vp) (e.vstate v) + d (e.vstate v) (e.vstate x)) / 2))
    ((d (e.vstate vp) (e.vstate v) + d (e.vstate v) (e.vstate vpp)) / 2)

theorem foldl_max_pull (f : Nat → ℚ) (l : List Nat) :
    ∀ a b : ℚ, l.foldl (fun m x => max m (f x)) (max a b)
      = max a (l.foldl (fun m x => max m (f x)) b) := by
  induction l with
  | nil => intro a b; rfl
  | cons x l ih =>
    intro a b
    simp only [List.foldl_cons]
    rw [max_assoc, ih]

theorem foldl_max_le_init (f : Nat → ℚ) (l : List Nat) :
    ∀ b : ℚ, b ≤ l.foldl (fun m x => max m (f x)) b := by
  induction l with
  | nil => intro b; exact le_refl b
  | cons x l ih =>
    intro b
    simp only [List.foldl_cons]
    exact le_trans (le_max_left b (f x)) (ih (max b (f x)))

theorem if_lt_eq_max (a b : ℚ) : (if a < b then b else a) = max a b := by
  rcases le_or_lt b a with h | h
  · rw [if_neg (not_lt.mpr h), max_eq_left h]
  · rw [if_pos h, max_eq_right (le_of_lt h)]

theorem foldl_max_append_zero (f : Nat → ℚ) (xs : List Nat) (t : ℚ) :
    max (xs.foldl (fun m x => max m (f x)) 0) t
      = max 0 (xs.foldl (fun m x => max m (f x)) t) := by
  rw [max_comm _ t, ← foldl_max_pull f xs t 0, max_comm t 0, foldl_max_pull]

theorem maxSpannerPath_eq_max_zero {α : Type} (d : α → α → ℚ) (e : SpanEnv α)
    (v vp vpp : Nat) :
    maxSpannerPath d e v vp vpp = max 0 (maxSpannerPathSpec d e v vp vpp) := by
  unfold maxSpannerPath maxSpannerPathSpec
  have hfun : (fun (maxDist : ℚ) (x : Nat) =>
      if maxDist < (d (e.vstate vp) (e.vstate v) + d (e.vstate v) (e.vstate x)) / 2
      then (d (e.vstate vp) (e.vstate v) + d (e.vstate v) (e.vstate x)) / 2
      else maxDist)
      = (fun (m : ℚ) (x : Nat) =>
        max m ((d (e.vstate vp) (e.vstate v) + d (e.vstate v) (e.vstate x)) / 2)) := by
    funext m x
    exact if_lt_eq_max m _
  rw [hfun, List.foldl_append]
  simp only [List.foldl_cons, List.foldl_nil]
  exact foldl_max_append_zero
    (fun x => (d (e.vstate vp) (e.vstate v) + d (e.vstate v) (e.vstate x)) / 2) _ _

/-- C1: the original spanner test reports a violation if and only if
`stretch_factor * last_distance(v, v', v'') < midpoint_path`, where
`midpoint_path` is the maximum over the qualified vertices of the claim's
formula (the oracle's distances being nonnegative). -/
theorem spannerTestOriginal_iff {α : Type} (d : α → α → ℚ) (stretchFactor : ℚ)
    (e : SpanEnv α) (v vp vpp : Nat) (hd : ∀ a b, 0 ≤ d a b) :
    spannerTestOriginal d stretchFactor e v vp vpp (e.getInterfaceData v vp vpp)
        = true
      ↔ WithTop.map (fun q => stretchFactor * q)
          ((e.getInterfaceData v vp vpp).lastDistance d)
        < (maxSpannerPathSpec d e v vp vpp : WithTop ℚ) := by
  have hspec_nonneg : 0 ≤ maxSpannerPathSpec d e v vp vpp := by
    refine le_trans ?_ (foldl_max_le_init _ _ _)
    have h1 := hd (e.vstate vp) (e.vstate v)
    have h2 := hd (e.vstate v) (e.vstate vpp)
    positivity
  unfold spannerTestOriginal
  rw [decide_eq_true_iff, maxSpannerPath_eq_max_zero, max_eq_right hspec_nonneg]

/-- C1 witness: a concrete four-vertex configuration on the rational line
with one extra qualified vertex; the distances are nonnegative absolute
differences. -/
theorem spannerTestOriginal_iff_witness :
    spannerTestOriginal (fun a b : ℚ => |a - b|) 3
        ⟨[(1, 2), (1, 3), (1, 4), (3, 4)], fun n => (n : ℚ),
          fun w pr => if w = 1 ∧ pr = (3, 4)
            then ⟨some (0, 0), none⟩ else ⟨some (5, 5), some (7, 7)⟩⟩
        1 2 3
        (SpanEnv.getInterfaceData
          ⟨[(1, 2), (1, 3), (1, 4), (3, 4)], fun n => (n : ℚ),
            fun w pr => if w = 1 ∧ pr = (3, 4)
              then ⟨some (0, 0), none⟩ else ⟨some (5, 5), some (7, 7)⟩⟩ 1 2 3)
        = true
      ↔ WithTop.map (fun q => 3 * q)
          ((SpanEnv.getInterfaceData
            ⟨[(1, 2), (1, 3), (1, 4), (3, 4)], fun n => (n : ℚ),
              fun w pr => if w = 1 ∧ pr = (3, 4)
                then ⟨some (0, 0), none⟩ else ⟨some (5, 5), some (7, 7)⟩⟩
            1 2 3).lastDistance (fun a b : ℚ => |a - b|))
        < (maxSpannerPathSpec (fun a b : ℚ => |a - b|)
            ⟨[(1, 2), (1, 3), (1, 4), (3, 4)], fun n => (n : ℚ),
              fun w pr => if w = 1 ∧ pr = (3, 4)
                then ⟨some (0, 0), none⟩ else ⟨some (5, 5), some (7, 7)⟩⟩
            1 2 3 : WithTop ℚ) :=
  spannerTestOriginal_iff (fun a b : ℚ => |a - b|) 3 _ 1 2 3
    (fun a b => abs_nonneg (a - b))

/-- Translation of `SparseCriteria::distanceCheck` (SparseCriteria.cpp
lines 1855-1934): attempt to tighten the pair-point bookkeeping of the
interface record for the canonical pair, storing the witness pair (q, q')
on side 1 when vp < vpp and on side 2 otherwise; with both sides present,
a replacement happens only when `distance(q, opposite.inside)` improves on
`lastDistance`.  Returns the updated record and the `updated` flag. -/
def distanceCheck {α : Type} (d : α → α → ℚ) (iData : InterfaceData α)
    (q qp : α) (vp vpp : Nat) : InterfaceData α × Bool :=
  if vp < vpp then
    match iData.interface1 with
    | none => ({ iData with interface1 := some (q, qp) }, true)
    | some _ =>
      match iData.interface2 with
      | none => (iData, false)
      | some p2 =>
        if (d q p2.1 : WithTop ℚ) < iData.lastDistance d then
          ({ iData with interface1 := some (q, qp) }, true)
        else (iData, false)
  else
    match iData.interface2 with
    | none => ({ iData with interface2 := some (q, qp) }, true)
    | some _ =>
      match iData.interface1 with
      | none => (iData, false)
      | some p1 =>
        if (d q p1.1 : WithTop ℚ) < iData.lastDistance d then
          ({ iData with interface2 := some (q, qp) }, true)
        else (iData, false)

/-- C8: the witness pair (q, q') is stored on interface side 1 when v' is
the smaller id and on side 2 when v' is the larger id (the other side is
never touched), and a tightening replacement of an already-stored pair
occurs exactly when the opposite side is set and
`distance(q, opposite.inside) < last_distance`. -/
theorem distanceCheck_spec {α : Type} (d : α → α → ℚ) (iData : InterfaceData α)
    (q qp : α) (vp vpp : Nat) :
    (vp < vpp →
      (distanceCheck d iData q qp vp vpp).1.interface2 = iData.interface2
        ∧ ((distanceCheck d iData q qp vp vpp).2 = true →
            (distanceCheck d iData q qp vp vpp).1.interface1 = some (q, qp))
        ∧ ((distanceCheck d iData q qp vp vpp).2 = false →
            (distanceCheck d iData q qp vp vpp).1 = iData)
        ∧ ((distanceCheck d iData q qp vp vpp).2 = true
          ↔ iData.interface1 = none
            ∨ ∃ p1 p2, iData.interface1 = some p1 ∧ iData.interface2 = some p2
                ∧ (d q p2.1 : WithTop ℚ) < iData.lastDistance d))
      ∧ (vpp < vp →
        (distanceCheck d iData q qp vp vpp).1.interface1 = iData.interface1
          ∧ ((distanceCheck d iData q qp vp vpp).2 = true →
              (distanceCheck d iData q qp vp vpp).1.interface2 = some (q, qp))
          ∧ ((distanceCheck d iData q qp vp vpp).2 = false →
              (distanceCheck d iData q qp vp vpp).1 = iData)
          ∧ ((distanceCheck d iData q qp vp vpp).2 = true
            ↔ iData.interface2 = none
              ∨ ∃ p2 p1, iData.interface2 = some p2 ∧ iData.interface1 = some p1
                  ∧ (d q p1.1 : WithTop ℚ) < iData.lastDistance d)) := by
  constructor
  · intro hlt
    cases h1 : iData.interface1 with
    | none =>
      simp [distanceCheck, hlt, h1]
    | some p1 =>
      cases h2 : iData.interface2 with
      | none => simp [distanceCheck, hlt, h1, h2]
      | some p2 =>
        by_cases hcmp : (d q p2.1 : WithTop ℚ) < iData.lastDistance d
        · simp [distanceCheck, hlt, h1, h2, hcmp]
        · simp [distanceCheck, hlt, h1, h2, hcmp]
  · intro hgt
    have hnlt : ¬ vp < vpp := by omega
    cases h2 : iData.interface2 with
    | none =>
      simp [distanceCheck, hnlt, h2]
    | some p2 =>
      cases h1 : iData.interface1 with
      | none => simp [distanceCheck, hnlt, h1, h2]
      | some p1 =>
        by_cases hcmp : (d q p1.1 : WithTop ℚ) < iData.lastDistance d
        · simp [distanceCheck, hnlt, h1, h2, hcmp]
        · simp [distanceCheck, hnlt, h1, h2, hcmp]

/-- C8 witness: storing a first witness pair on side 1 for the canonical
pair (1, 2) leaves side 2 untouched and sets side 1 to (q, q'). -/
theorem distanceCheck_spec_witness :
    (distanceCheck (fun a b : ℚ => |a - b|)
        ⟨none, some ((4 : ℚ), (5 : ℚ))⟩ 0 1 1 2).1.interface2
      = (⟨none, some ((4 : ℚ), (5 : ℚ))⟩ : InterfaceData ℚ).interface2 :=
  ((distanceCheck_spec (fun a b : ℚ => |a - b|)
      ⟨none, some ((4 : ℚ), (5 : ℚ))⟩ 0 1 1 2).1 (by decide)).1

/-! ### Sparse graph state, close-vertex replacement and the connectivity
criterion (claims C3, C4) -/

/-- State of the sparse graph visible to `SparseCriteria`: vertex list,
per-vertex properties (state ID — 0 is the tombstone marker —, state,
type, interface table), the undirected typed edge list, the
nearest-neighbor index, and the disjoint-set forest represented by a
representative map `comp`. -/
@[ext]
structure SG (α : Type) where
  verts : List Nat
  stateID : Nat → Nat
  vstate : Nat → α
  vtype : Nat → VertexType
  edges : List (Nat × Nat × EdgeType)
  iface : Nat → List ((Nat × Nat) × InterfaceData α)
  nnIndex : List Nat
  comp : Nat → Nat

/-- Undirected edge test (`SparseGraph::hasEdge`). -/
def SG.hasEdge {α : Type} (g : SG α) (u v : Nat) : Bool :=
  g.edges.any (fun e =>
    (decide (e.1 = u) && decide (e.2.1 = v)) || (decide (e.1 = v) && decide (e.2.1 = u)))

/-- Neighbors of a vertex through its incident edges
(`boost::out_edges` targets), in edge-list order. -/
def SG.outNeighbors {α : Type} (g : SG α) (v : Nat) : List Nat :=
  g.edges.filterMap (fun e =>
    if e.1 = v then some e.2.1 else if e.2.1 = v then some e.1 else none)

/-- Modelled from the spec: `add_edge` (section 4.3) refuses `u = v` and an
already-present edge, otherwise inserts the edge and unions the two
disjoint-set classes (the class of v is relabelled to u's representative;
the implementing `SparseGraph.cpp` is not among the provided sources). -/
def SG.addEdge {α : Type} (g : SG α) (u v : Nat) (t : EdgeType) : SG α :=
  if u = v ∨ g.hasEdge u v = true then g
  else
    { g with
      edges := g.edges ++ [(u, v, t)]
      comp := fun x => if g.comp x = g.comp v then g.comp u else g.comp x }

/-- Modelled from the spec: `add_vertex` (section 4.3) inserts into the
graph, the nearest-neighbor index and the disjoint-set forest as a
singleton class. -/
def SG.addVertex {α : Type} (g : SG α) (v sid : Nat) (st : α) (t : VertexType) :
    SG α :=
  { verts := g.verts ++ [v]
    stateID := fun x => if x = v then sid else g.stateID x
    vstate := fun x => if x = v then st else g.vstate x
    vtype := fun x => if x = v then t else g.vtype x
    edges := g.edges
    iface := fun x => if x = v then [] else g.iface x
    nnIndex := g.nnIndex ++ [v]
    comp := fun x => if x = v then v else g.comp x }

/-- Modelled from the spec: `remove_vertex` (section 4.3) sets the state ID
to 0 (tombstone), clears the vertex's interface table and removes it from
the nearest-neighbor index; edges are not eagerly removed. -/
def SG.removeVertex {α : Type} (g : SG α) (v : Nat) : SG α :=
  { g with
    stateID := fun x => if x = v then 0 else g.stateID x
    iface := fun x => if x = v then [] else g.iface x
    nnIndex := g.nnIndex.erase v }

/-- Modelled from the spec: `clear_interface_data` (section 4.3) drops the
entire interface table of every indexed vertex within `sparse_delta` of the
given state. -/
def SG.clearInterfaceData {α : Type} (d : α → α → ℚ) (g : SG α) (st : α)
    (sparseDelta : ℚ) : SG α :=
  { g with
    iface := fun x =>
      if x ∈ g.nnIndex ∧ d (g.vstate x) st ≤ sparseDelta then [] else g.iface x }

/-- Modelled from the spec: the k-nearest-neighbor query `nn_->nearestK`
over the index, by distance to the query vertex's state (a stable sort;
the `NearestNeighbors` structure is an external OMPL collaborator). -/
def SG.nearestK {α : Type} (d : α → α → ℚ) (g : SG α) (v : Nat) (k : Nat) :
    List Nat :=
  (List.insertionSort
    (fun a b => d (g.vstate v) (g.vstate a) ≤ d (g.vstate v) (g.vstate b))
    g.nnIndex).take k

/-- Configuration of the replacement logic: the
`use_check_remove_close_vertices` flag and `sparse_delta`. -/
structure RCfg where
  useCheckRemoveCloseVertices : Bool
  sparseDelta : ℚ

/-- Translation of `SparseCriteria::checkRemoveCloseVertices`
(SparseCriteria.cpp lines 1972-2101).  `none` models the `exit(-1)` when
the second nearest neighbor is v1 itself; otherwise the result is the
updated graph and whether a replacement happened.  The threshold 1/2 is
the hard-coded `sparseDeltaFractionCheck = 0.5`. -/
def checkRemoveCloseVertices {α : Type} (cfg : RCfg) (d : α → α → ℚ)
    (motion : α → α → Bool) (g : SG α) (v1 : Nat) : Option (SG α × Bool) :=
  if cfg.useCheckRemoveCloseVertices = false then some (g, false)
  else
    let graphNeighbors := SG.nearestK d g v1 2
    if graphNeighbors.length ≤ 1 then some (g, false)
    else
      let v2 := graphNeighbors.getD 1 0
      if v1 = v2 then none
      else if g.vtype v2 = VertexType.quality then some (g, false)
      else if cfg.sparseDelta * (1 / 2) < d (g.vstate v1) (g.vstate v2) then
        some (g, false)
      else if motion (g.vstate v1) (g.vstate v2) = false then some (g, false)
      else if (g.outNeighbors v2).any (fun v3 =>
          decide (cfg.sparseDelta < d (g.vstate v1) (g.vstate v3))
            || !motion (g.vstate v1) (g.vstate v3)) then
        some (g, false)
      else
        let g1 := SG.clearInterfaceData d g (g.vstate v2) cfg.sparseDelta
        let g2 := (g1.outNeighbors v2).foldl
          (fun gacc v3 => gacc.addEdge v1 v3 EdgeType.eInterface) g1
        some (g2.removeVertex v2, true)

def rcvGraph {α : Type} (r : Option (SG α × Bool)) (g : SG α) : SG α :=
  (r.getD (g, false)).1

def rcvFlag {α : Type} (r : Option (SG α × Bool)) (g : SG α) : Bool :=
  (r.getD (g, false)).2

theorem mem_outNeighbors_iff_hasEdge {α : Type} (g : SG α) (u x : Nat) :
    x ∈ g.outNeighbors u ↔ g.hasEdge u x = true := by
  unfold SG.outNeighbors SG.hasEdge
  rw [List.mem_filterMap, List.any_eq_true]
  constructor
  · rintro ⟨e, he, hfe⟩
    refine ⟨e, he, ?_⟩
    by_cases h1 : e.1 = u
    · rw [if_pos h1] at hfe
      simp [h1, Option.some_inj.mp hfe]
    · rw [if_neg h1] at hfe
      by_cases h2 : e.2.1 = u
      · rw [if_pos h2] at hfe
        simp [h2, Option.some_inj.mp hfe]
      · rw [if_neg h2] at hfe
        exact absurd hfe (by simp)
  · rintro ⟨e, he, hpred⟩
    refine ⟨e, he, ?_⟩
    rcases (by simpa using hpred :
        (e.1 = u ∧ e.2.1 = x) ∨ (e.1 = x ∧ e.2.1 = u)) with h | h
    · rw [if_pos h.1]
      exact congrArg some h.2
    · by_cases h1 : e.1 = u
      · rw [if_pos h1]
        exact congrArg some (h.2.trans (h1.symm.trans h.1))
      · rw [if_neg h1, if_pos h.2]
        exact congrArg some h.1

theorem hasEdge_false_of_no_neighbors {α : Type} (g : SG α) (u : Nat)
    (h : g.outNeighbors u = []) (x : Nat) : g.hasEdge u x = false := by
  cases he : g.hasEdge u x with
  | false => rfl
  | true =>
    have := (mem_outNeighbors_iff_hasEdge g u x).mpr he
    rw [h] at this
    simp at this

theorem addEdge_fold_components {α : Type} (v1 : Nat) (t : EdgeType) :
    ∀ (L : List Nat) (g : SG α),
      (∀ v3 ∈ L, g.hasEdge v1 v3 = false) → L.Nodup → (∀ v3 ∈ L, v3 ≠ v1) →
      ((L.foldl (fun gacc v3 => gacc.addEdge v1 v3 t) g).edges
          = g.edges ++ L.map (fun v3 => (v1, v3, t)))
        ∧ (L.foldl (fun gacc v3 => gacc.addEdge v1 v3 t) g).iface = g.iface
        ∧ (L.foldl (fun gacc v3 => gacc.addEdge v1 v3 t) g).stateID = g.stateID := by
  intro L
  induction L with
  | nil => intro g _ _ _; simp
  | cons x rest ih =>
    intro g hfree hnodup hne
    have hx : g.hasEdge v1 x = false := hfree x (List.mem_cons_self _ _)
    have hxv : ¬ (v1 = x) := fun h => (hne x (List.mem_cons_self _ _)) h.symm
    have hstep : g.addEdge v1 x t
        = { g with
            edges := g.edges ++ [(v1, x, t)]
            comp := fun y => if g.comp y = g.comp x then g.comp v1 else g.comp y } := by
      unfold SG.addEdge
      rw [if_neg]
      push_neg
      exact ⟨hxv, by simp [hx]⟩
    have hfree' : ∀ v3 ∈ rest,
        ({ g with
            edges := g.edges ++ [(v1, x, t)]
            comp := fun y => if g.comp y = g.comp x then g.comp v1 else g.comp y }
          : SG α).hasEdge v1 v3 = false := by
      intro v3 hv3
      have hne3 : v3 ≠ v1 := hne v3 (List.mem_cons_of_mem _ hv3)
      have hnex : x ≠ v3 := by
        intro hxx
        exact (List.nodup_cons.mp hnodup).1 (hxx ▸ hv3)
      have hf : g.hasEdge v1 v3 = false := hfree v3 (List.mem_cons_of_mem _ hv3)
      unfold SG.hasEdge at hf ⊢
      simp only [List.any_append, hf, Bool.false_or, List.any_cons, List.any_nil]
      simp [hnex]
      intro h
      exact absurd h.symm hne3
    have hrest := ih ({ g with
        edges := g.edges ++ [(v1, x, t)]
        comp := fun y => if g.comp y = g.comp x then g.comp v1 else g.comp y })
      hfree' (List.nodup_cons.mp hnodup).2
      (fun v3 hv3 => hne v3 (List.mem_cons_of_mem _ hv3))
    simp only [List.foldl_cons, hstep]
    refine ⟨?_, hrest.2.1, hrest.2.2⟩
    rw [hrest.1]
    simp

theorem SG.hasEdge_symm {α : Type} (g : SG α) (u v : Nat) :
    g.hasEdge u v = g.hasEdge v u := by
  unfold SG.hasEdge
  congr 1
  funext e
  exact Bool.or_comm _ _

/-- C3: with `use_check_remove_close_vertices` enabled and the
nearest-neighbor query around the freshly added vertex v1 returning v1
itself followed by the nearest existing vertex v2, if v2 is within
`0.5 * sparse_delta`, is not QUALITY, has a free motion to v1, and every
neighbor v3 of v2 is within `sparse_delta` of v1 with a free motion, then
the replacement clears v2's interface data, adds an edge (v1, v3) of type
INTERFACE for every former edge (v2, v3), and tombstones v2; if any of
these conditions fails, no modification is made. -/
theorem checkRemoveCloseVertices_spec {α : Type} (cfg : RCfg) (d : α → α → ℚ)
    (motion : α → α → Bool) (g : SG α) (v1 v2 : Nat)
    (hflag : cfg.useCheckRemoveCloseVertices = true)
    (hnn : SG.nearestK d g v1 2 = [v1, v2])
    (hne : v1 ≠ v2)
    (hfresh : g.outNeighbors v1 = [])
    (hnodup : (g.outNeighbors v2).Nodup) :
    ((g.vtype v2 ≠ VertexType.quality
        ∧ d (g.vstate v1) (g.vstate v2) ≤ cfg.sparseDelta * (1 / 2)
        ∧ motion (g.vstate v1) (g.vstate v2) = true
        ∧ ∀ v3 ∈ g.outNeighbors v2,
            d (g.vstate v1) (g.vstate v3) ≤ cfg.sparseDelta
              ∧ motion (g.vstate v1) (g.vstate v3) = true) →
      (rcvFlag (checkRemoveCloseVertices cfg d motion g v1) g = true
        ∧ (rcvGraph (checkRemoveCloseVertices cfg d motion g v1) g).iface v2 = []
        ∧ (rcvGraph (checkRemoveCloseVertices cfg d motion g v1) g).stateID v2 = 0
        ∧ ∀ v3 ∈ g.outNeighbors v2,
            (v1, v3, EdgeType.eInterface)
              ∈ (rcvGraph (checkRemoveCloseVertices cfg d motion g v1) g).edges))
      ∧ (¬ (g.vtype v2 ≠ VertexType.quality
          ∧ d (g.vstate v1) (g.vstate v2) ≤ cfg.sparseDelta * (1 / 2)
          ∧ motion (g.vstate v1) (g.vstate v2) = true
          ∧ ∀ v3 ∈ g.outNeighbors v2,
              d (g.vstate v1) (g.vstate v3) ≤ cfg.sparseDelta
                ∧ motion (g.vstate v1) (g.vstate v3) = true) →
        checkRemoveCloseVertices cfg d motion g v1 = some (g, false)) := by
  have hrun : checkRemoveCloseVertices cfg d motion g v1
      = (if g.vtype v2 = VertexType.quality then some (g, false)
        else if cfg.sparseDelta * (1 / 2) < d (g.vstate v1) (g.vstate v2) then
          some (g, false)
        else if motion (g.vstate v1) (g.vstate v2) = false then some (g, false)
        else if (g.outNeighbors v2).any (fun v3 =>
            decide (cfg.sparseDelta < d (g.vstate v1) (g.vstate v3))
              || !motion (g.vstate v1) (g.vstate v3)) then
          some (g, false)
        else
          some ((((SG.clearInterfaceData d g (g.vstate v2) cfg.sparseDelta).outNeighbors
              v2).foldl
            (fun gacc v3 => gacc.addEdge v1 v3 EdgeType.eInterface)
            (SG.clearInterfaceData d g (g.vstate v2) cfg.sparseDelta)).removeVertex v2,
            true)) := by
    unfold checkRemoveCloseVertices
    rw [if_neg (by simp [hflag])]
    simp only [hnn]
    norm_num
    exact fun h => absurd h hne
  have houtn : (SG.clearInterfaceData d g (g.vstate v2) cfg.sparseDelta).outNeighbors v2
      = g.outNeighbors v2 := rfl
  constructor
  · rintro ⟨hc1, hc2, hc3, hc4⟩
    have hany : (g.outNeighbors v2).any (fun v3 =>
        decide (cfg.sparseDelta < d (g.vstate v1) (g.vstate v3))
          || !motion (g.vstate v1) (g.vstate v3)) = false := by
      rw [List.any_eq_false]
      intro v3 hv3
      obtain ⟨hd3, hm3⟩ := hc4 v3 hv3
      simp [not_lt.mpr hd3, hm3]
    rw [hrun, if_neg hc1, if_neg (not_lt.mpr hc2), if_neg (by simp [hc3]),
      if_neg (by simp [hany])]
    have hfree : ∀ v3 ∈ g.outNeighbors v2,
        (SG.clearInterfaceData d g (g.vstate v2) cfg.sparseDelta).hasEdge v1 v3
          = false :=
      fun v3 _ => hasEdge_false_of_no_neighbors g v1 hfresh v3
    have hnev1 : ∀ v3 ∈ g.outNeighbors v2, v3 ≠ v1 := by
      intro v3 hv3 hda
      subst hda
      have h21 := (mem_outNeighbors_iff_hasEdge g v2 v3).mp hv3
      rw [← SG.hasEdge_symm] at h21
      rw [hasEdge_false_of_no_neighbors g v3 hfresh v2] at h21
      exact Bool.false_ne_true h21
    obtain ⟨hedges, hiface, hsid⟩ := addEdge_fold_components v1 EdgeType.eInterface
      (g.outNeighbors v2) (SG.clearInterfaceData d g (g.vstate v2) cfg.sparseDelta)
      hfree hnodup hnev1
    rw [houtn]
    refine ⟨rfl, ?_, ?_, ?_⟩
    · simp [rcvGraph, SG.removeVertex]
    · simp [rcvGraph, SG.removeVertex]
    · intro v3 hv3
      simp only [rcvGraph, Option.getD_some, SG.removeVertex]
      rw [hedges]
      refine List.mem_append_right _ ?_
      exact List.mem_map.mpr ⟨v3, hv3, rfl⟩
  · intro hnc
    rw [hrun]
    by_cases h1 : g.vtype v2 = VertexType.quality
    · rw [if_pos h1]
    · rw [if_neg h1]
      by_cases h2 : cfg.sparseDelta * (1 / 2) < d (g.vstate v1) (g.vstate v2)
      · rw [if_pos h2]
      · rw [if_neg h2]
        by_cases h3 : motion (g.vstate v1) (g.vstate v2) = false
        · rw [if_pos h3]
        · rw [if_neg h3]
          have h4 : ¬ ∀ v3 ∈ g.outNeighbors v2,
              d (g.vstate v1) (g.vstate v3) ≤ cfg.sparseDelta
                ∧ motion (g.vstate v1) (g.vstate v3) = true := by
            intro hall
            exact hnc ⟨h1, not_lt.mp h2, by simpa using h3, hall⟩
          push_neg at h4
          obtain ⟨v3, hv3, hbad⟩ := h4
          have : (g.outNeighbors v2).any (fun v3 =>
              decide (cfg.sparseDelta < d (g.vstate v1) (g.vstate v3))
                || !motion (g.vstate v1) (g.vstate v3)) = true := by
            rw [List.any_eq_true]
            refine ⟨v3, hv3, ?_⟩
            by_cases hd3 : cfg.sparseDelta < d (g.vstate v1) (g.vstate v3)
            · simp [hd3]
            · have := hbad (not_lt.mp hd3)
              simp [this]
          rw [if_pos this]

/-- C3 witness: a three-vertex line graph with literal distances; vertex 2
(with neighbor 3) is replaced by the fresh vertex 1, and the edge (1, 3)
of type INTERFACE appears in the result, by the theorem. -/
theorem checkRemoveCloseVertices_spec_witness :
    (1, 3, EdgeType.eInterface)
      ∈ (rcvGraph (checkRemoveCloseVertices ⟨true, 4⟩
          (fun a b : Nat => if a = b then (0 : ℚ) else if a + b = 3 then 1
            else if a + b = 4 then 2 else 3)
          (fun _ _ => true)
          ⟨[1, 2, 3], fun x => x, fun x => x, fun _ => VertexType.coverage,
            [(2, 3, EdgeType.eConnectivity)], fun _ => [], [1, 2, 3], fun x => x⟩ 1)
        ⟨[1, 2, 3], fun x => x, fun x => x, fun _ => VertexType.coverage,
          [(2, 3, EdgeType.eConnectivity)], fun _ => [], [1, 2, 3], fun x => x⟩).edges :=
  ((checkRemoveCloseVertices_spec ⟨true, 4⟩
      (fun a b : Nat => if a = b then (0 : ℚ) else if a + b = 3 then 1
        else if a + b = 4 then 2 else 3)
      (fun _ _ => true)
      ⟨[1, 2, 3], fun x => x, fun x => x, fun _ => VertexType.coverage,
        [(2, 3, EdgeType.eConnectivity)], fun _ => [], [1, 2, 3], fun x => x⟩ 1 2
      rfl (by decide) (by decide) (by decide) (by decide)).1
    ⟨by decide, by norm_num, rfl, by
      intro v3 hv3
      have h3 : v3 = 3 := by simpa [SG.outNeighbors] using hv3
      subst h3
      norm_num⟩).2.2.2 3 (by decide)

/-- Fresh vertex descriptor handed out by the graph for the next
`add_vertex` (boost vertex descriptors are consecutive integers). -/
def freshId {α : Type} (g : SG α) : Nat := g.verts.foldl max 0 + 1

/-- Vertices taking part in some cross-component pair of the visible
neighborhood: the contents of the `statesInDiffConnectedComponents` set of
`SparseCriteria::checkAddConnectivity` (SparseCriteria.cpp lines 840-866)
before deduplication; the double loop inserts both endpoints of every pair
lying in different disjoint-set components. -/
def diffPairMembers (c : Nat → Nat) : List Nat → List Nat
  | [] => []
  | v :: rest =>
    (if rest.any (fun w => decide (c w ≠ c v)) then [v] else [])
      ++ rest.filter (fun w => decide (c w ≠ c v))
      ++ diffPairMembers c rest

/-- The `std::set` of cross-component vertices: sorted and deduplicated. -/
def diffComponentSet (c : Nat → Nat) (vs : List Nat) : List Nat :=
  List.insertionSort (fun a b => a ≤ b) (diffPairMembers c vs).dedup

/-- Modelled from the spec: `disjoint_set_count` (section 4.3) — the number
of distinct representative classes over the vertices of the graph. -/
def disjointSetCount {α : Type} (g : SG α) : Nat :=
  (g.verts.map g.comp).dedup.length

/-- Translation of `SparseCriteria::checkAddConnectivity`
(SparseCriteria.cpp lines 826-924): require at least two visible
neighbors falling into two or more disjoint-set components, add the
candidate as a CONNECTIVITY vertex, run the close-vertex replacement, then
wire one edge to a representative of each participating component,
skipping tombstoned entries, entries with an equal state, entries already
connected to the new vertex, and entries already unified into the new
vertex's component by earlier edges of the same loop.  `none` propagates
the replacement's `exit(-1)`. -/
def checkAddConnectivity {α : Type} (cfg : RCfg) (d : α → α → ℚ)
    (motion : α → α → Bool) (stEq : α → α → Bool) (g : SG α) (qsid : Nat)
    (qst : α) (visibleNeighborhood : List Nat) : Option (SG α × Bool) :=
  if visibleNeighborhood.length < 2 then some (g, false)
  else if (diffComponentSet g.comp visibleNeighborhood).isEmpty then some (g, false)
  else
    match checkRemoveCloseVertices cfg d motion
        (g.addVertex (freshId g) qsid qst VertexType.connectivity) (freshId g) with
    | none => none
    | some (g2, _) =>
      some ((diffComponentSet g.comp visibleNeighborhood).foldl (fun gacc u =>
        if gacc.stateID u = 0 then gacc
        else if stEq (gacc.vstate u) (gacc.vstate (freshId g)) then gacc
        else if gacc.hasEdge (freshId g) u then gacc
        else if gacc.comp u = gacc.comp (freshId g) then gacc
        else gacc.addEdge (freshId g) u EdgeType.eConnectivity) g2, true)

/-- Graph state after the connectivity wiring merged the classes of the
vertices of `wired` into the fresh vertex's singleton class and added one
CONNECTIVITY edge to each of them. -/
def connWired {α : Type} (g : SG α) (newV qsid : Nat) (qst : α)
    (wired : List Nat) : SG α :=
  { verts := g.verts ++ [newV]
    stateID := fun x => if x = newV then qsid else g.stateID x
    vstate := fun x => if x = newV then qst else g.vstate x
    vtype := fun x => if x = newV then VertexType.connectivity else g.vtype x
    edges := g.edges ++ wired.map (fun w => (newV, w, EdgeType.eConnectivity))
    iface := fun x => if x = newV then [] else g.iface x
    nnIndex := g.nnIndex ++ [newV]
    comp := fun x =>
      if x = newV ∨ g.comp x ∈ wired.map g.comp then newV else g.comp x }

/-- Vertices the connectivity wiring loop actually connects: the first
member of each class not yet merged. -/
def wireSelect (c : Nat → Nat) : List Nat → List Nat → List Nat
  | [], wired => wired
  | u :: rest, wired =>
    if c u ∈ wired.map c then wireSelect c rest wired
    else wireSelect c rest (wired ++ [u])

theorem le_foldl_max (l : List Nat) :
    ∀ a : Nat, (∀ u ∈ l, u ≤ l.foldl max a) ∧ a ≤ l.foldl max a := by
  induction l with
  | nil => intro a; exact ⟨by simp, le_refl a⟩
  | cons x l ih =>
    intro a
    simp only [List.foldl_cons]
    refine ⟨?_, le_trans (le_max_left a x) (ih (max a x)).2⟩
    intro u hu
    rcases List.mem_cons.mp hu with h | h
    · subst h
      exact le_trans (le_max_right a u) (ih (max a u)).2
    · exact (ih (max a x)).1 u h

theorem freshId_not_mem {α : Type} (g : SG α) : freshId g ∉ g.verts := by
  intro hmem
  have := (le_foldl_max g.verts 0).1 _ hmem
  unfold freshId at this
  omega

theorem wireSelect_subset (c : Nat → Nat) :
    ∀ (L wired : List Nat) (w : Nat),
      w ∈ wireSelect c L wired → w ∈ wired ∨ w ∈ L := by
  intro L
  induction L with
  | nil => intro wired w hw; exact Or.inl hw
  | cons u rest ih =>
    intro wired w hw
    unfold wireSelect at hw
    by_cases hc : c u ∈ wired.map c
    · rw [if_pos hc] at hw
      rcases ih wired w hw with h | h
      · exact Or.inl h
      · exact Or.inr (List.mem_cons_of_mem _ h)
    · rw [if_neg hc] at hw
      rcases ih (wired ++ [u]) w hw with h | h
      · rcases List.mem_append.mp h with h | h
        · exact Or.inl h
        · simp at h
          exact Or.inr (h ▸ List.mem_cons_self _ _)
      · exact Or.inr (List.mem_cons_of_mem _ h)

theorem wireSelect_classes (c : Nat → Nat) :
    ∀ (L wired : List Nat) (x : Nat),
      x ∈ (wireSelect c L wired).map c ↔ x ∈ wired.map c ∨ x ∈ L.map c := by
  intro L
  induction L with
  | nil => intro wired x; simp [wireSelect]
  | cons u rest ih =>
    intro wired x
    unfold wireSelect
    by_cases hc : c u ∈ wired.map c
    · rw [if_pos hc, ih]
      simp only [List.map_cons, List.mem_cons]
      constructor
      · rintro (h | h)
        · exact Or.inl h
        · exact Or.inr (Or.inr h)
      · rintro (h | h | h)
        · exact Or.inl h
        · exact Or.inl (h ▸ hc)
        · exact Or.inr h
    · rw [if_neg hc, ih]
      simp only [List.map_append, List.map_cons, List.map_nil, List.mem_append,
        List.mem_cons, List.mem_singleton]
      constructor
      · rintro ((h | h) | h)
        · exact Or.inl h
        · simp at h
          exact Or.inr (Or.inl h)
        · exact Or.inr (Or.inr h)
      · rintro (h | h | h)
        · exact Or.inl (Or.inl h)
        · exact Or.inl (Or.inr (by simp [h]))
        · exact Or.inr h

theorem wireSelect_nodup (c : Nat → Nat) :
    ∀ (L wired : List Nat), (wired.map c).Nodup →
      ((wireSelect c L wired).map c).Nodup := by
  intro L
  induction L with
  | nil => intro wired h; exact h
  | cons u rest ih =>
    intro wired h
    unfold wireSelect
    by_cases hc : c u ∈ wired.map c
    · rw [if_pos hc]; exact ih wired h
    · rw [if_neg hc]
      refine ih (wired ++ [u]) ?_
      rw [List.map_append]
      simp only [List.map_cons, List.map_nil]
      exact List.Nodup.append h (List.nodup_singleton _)
        (by simpa [List.disjoint_singleton] using hc)

theorem mem_diffPairMembers (c : Nat → Nat) :
    ∀ (vs : List Nat) (u : Nat),
      u ∈ diffPairMembers c vs ↔ u ∈ vs ∧ ∃ w ∈ vs, c w ≠ c u := by
  intro vs
  induction vs with
  | nil => intro u; simp [diffPairMembers]
  | cons v rest ih =>
    intro u
    unfold diffPairMembers
    simp only [List.mem_append, List.mem_filter, ih, List.mem_cons,
      decide_eq_true_eq]
    constructor
    · rintro ((h | h) | h)
      · by_cases hany : rest.any (fun w => decide (c w ≠ c v)) = true
        · rw [if_pos hany] at h
          simp at h
          subst h
          obtain ⟨w, hw, hcw⟩ := List.any_eq_true.mp hany
          exact ⟨Or.inl rfl, w, Or.inr hw, by simpa using hcw⟩
        · rw [if_neg hany] at h
          simp at h
      · exact ⟨Or.inr h.1, v, Or.inl rfl, fun he => h.2 he.symm⟩
      · exact ⟨Or.inr h.1, h.2.choose, Or.inr h.2.choose_spec.1, h.2.choose_spec.2⟩
    · rintro ⟨hu, w, hw, hcw⟩
      rcases hu with hu | hu
      · subst hu
        left; left
        rcases hw with hw | hw
        · exact absurd rfl (hw ▸ hcw)
        · rw [if_pos (List.any_eq_true.mpr ⟨w, hw, by simpa using hcw⟩)]
          exact List.mem_singleton.mpr rfl
      · rcases hw with hw | hw
        · left; right
          exact ⟨hu, fun he => hcw (hw ▸ he.symm)⟩
        · right
          exact ⟨hu, w, hw, hcw⟩

theorem exists_partner (c : Nat → Nat) (vs : List Nat)
    (hk : 2 ≤ (vs.map c).dedup.length) :
    ∀ u ∈ vs, ∃ w ∈ vs, c w ≠ c u := by
  intro u hu
  by_contra hno
  push_neg at hno
  have hall : ∀ x ∈ vs.map c, x = c u := by
    intro x hx
    obtain ⟨w, hw, rfl⟩ := List.mem_map.mp hx
    exact hno w hw
  have hsub : (vs.map c).toFinset ⊆ {c u} := by
    intro x hx
    rw [List.mem_toFinset] at hx
    simp [hall x hx]
  have hcard : (vs.map c).toFinset.card ≤ 1 := by
    calc (vs.map c).toFinset.card ≤ ({c u} : Finset Nat).card :=
          Finset.card_le_card hsub
      _ = 1 := Finset.card_singleton _
  rw [List.card_toFinset] at hcard
  omega

theorem mem_diffComponentSet (c : Nat → Nat) (vs : List Nat) (u : Nat) :
    u ∈ diffComponentSet c vs ↔ u ∈ diffPairMembers c vs := by
  unfold diffComponentSet
  rw [(List.perm_insertionSort _ _).mem_iff, List.mem_dedup]

theorem nodup_diffComponentSet (c : Nat → Nat) (vs : List Nat) :
    (diffComponentSet c vs).Nodup :=
  (List.perm_insertionSort _ _).nodup_iff.mpr (List.nodup_dedup _)

theorem wireSelect_cons (c : Nat → Nat) (u : Nat) (rest wired : List Nat) :
    wireSelect c (u :: rest) wired
      = if c u ∈ wired.map c then wireSelect c rest wired
        else wireSelect c rest (wired ++ [u]) := rfl

theorem connWired_nil {α : Type} (g : SG α) (newV qsid : Nat) (qst : α) :
    connWired g newV qsid qst []
      = g.addVertex newV qsid qst VertexType.connectivity := by
  unfold connWired SG.addVertex
  ext x <;> simp

theorem connWired_hasEdge {α : Type} (g : SG α) (newV qsid : Nat) (qst : α)
    (wired : List Nat)
    (hedges : ∀ e ∈ g.edges, e.1 ∈ g.verts ∧ e.2.1 ∈ g.verts)
    (hnew : newV ∉ g.verts) (u : Nat) (hune : u ≠ newV) :
    (connWired g newV qsid qst wired).hasEdge newV u = decide (u ∈ wired) := by
  unfold connWired SG.hasEdge
  simp only [List.any_append]
  have h1 : (g.edges.any fun e =>
      (decide (e.1 = newV) && decide (e.2.1 = u))
        || (decide (e.1 = u) && decide (e.2.1 = newV))) = false := by
    rw [List.any_eq_false]
    intro e he
    have hv := hedges e he
    have hne1 : e.1 ≠ newV := fun h => hnew (h ▸ hv.1)
    have hne2 : e.2.1 ≠ newV := fun h => hnew (h ▸ hv.2)
    simp [hne1, hne2]
  rw [h1, Bool.false_or]
  by_cases hu : u ∈ wired
  · rw [decide_eq_true hu]
    rw [List.any_eq_true]
    exact ⟨(newV, u, EdgeType.eConnectivity), List.mem_map.mpr ⟨u, hu, rfl⟩, by simp⟩
  · rw [decide_eq_false hu]
    rw [List.any_eq_false]
    rintro e he
    obtain ⟨w, hw, rfl⟩ := List.mem_map.mp he
    have hwu : ¬ (w = u) := fun h => hu (h ▸ hw)
    simp [hwu, Ne.symm hune]

theorem connWire_go {α : Type} (g : SG α) (stEq : α → α → Bool) (qsid : Nat)
    (qst : α) (newV : Nat) (hnew : newV ∉ g.verts)
    (hedges : ∀ e ∈ g.edges, e.1 ∈ g.verts ∧ e.2.1 ∈ g.verts)
    (hcompmem : ∀ u ∈ g.verts, g.comp u ∈ g.verts) :
    ∀ (L wired : List Nat),
      (∀ u ∈ L, u ∈ g.verts ∧ g.stateID u ≠ 0 ∧ stEq (g.vstate u) qst = false) →
      (∀ w ∈ wired, w ∈ g.verts) →
      L.foldl (fun gacc u =>
        if gacc.stateID u = 0 then gacc
        else if stEq (gacc.vstate u) (gacc.vstate newV) then gacc
        else if gacc.hasEdge newV u then gacc
        else if gacc.comp u = gacc.comp newV then gacc
        else gacc.addEdge newV u EdgeType.eConnectivity)
        (connWired g newV qsid qst wired)
      = connWired g newV qsid qst (wireSelect g.comp L wired) := by
  intro L
  induction L with
  | nil => intro wired _ _; rfl
  | cons u rest ih =>
    intro wired hL hwired
    obtain ⟨huv, hus, hust⟩ := hL u (List.mem_cons_self _ _)
    have hrest : ∀ x ∈ rest, x ∈ g.verts ∧ g.stateID x ≠ 0
        ∧ stEq (g.vstate x) qst = false :=
      fun x hx => hL x (List.mem_cons_of_mem _ hx)
    have hune : u ≠ newV := fun h => hnew (h ▸ huv)
    have hsid : (connWired g newV qsid qst wired).stateID u = g.stateID u := by
      simp [connWired, hune]
    have hvsu : (connWired g newV qsid qst wired).vstate u = g.vstate u := by
      simp [connWired, hune]
    have hvsn : (connWired g newV qsid qst wired).vstate newV = qst := by
      simp [connWired]
    have hcompn : (connWired g newV qsid qst wired).comp newV = newV := by
      simp [connWired]
    simp only [List.foldl_cons]
    rw [if_neg (by rw [hsid]; exact hus),
      if_neg (by rw [hvsu, hvsn, hust]; exact Bool.false_ne_true)]
    by_cases hcu : g.comp u ∈ wired.map g.comp
    · have hskip : (if (connWired g newV qsid qst wired).hasEdge newV u = true then
          connWired g newV qsid qst wired
        else if (connWired g newV qsid qst wired).comp u
            = (connWired g newV qsid qst wired).comp newV then
          connWired g newV qsid qst wired
        else (connWired g newV qsid qst wired).addEdge newV u
          EdgeType.eConnectivity) = connWired g newV qsid qst wired := by
        by_cases hu : u ∈ wired
        · rw [if_pos (by
            rw [connWired_hasEdge g newV qsid qst wired hedges hnew u hune]
            exact decide_eq_true hu)]
        · have hcompu : (connWired g newV qsid qst wired).comp u = newV := by
            show (if u = newV ∨ g.comp u ∈ wired.map g.comp then newV else g.comp u)
              = newV
            rw [if_pos (Or.inr hcu)]
          rw [if_neg (by
              rw [connWired_hasEdge g newV qsid qst wired hedges hnew u hune]
              simp [hu]),
            if_pos (by rw [hcompu, hcompn])]
      rw [hskip, ih wired hrest hwired, wireSelect_cons, if_pos hcu]
    · have hu : u ∉ wired := fun h => hcu (List.mem_map.mpr ⟨u, h, rfl⟩)
      have hcompu : (connWired g newV qsid qst wired).comp u = g.comp u := by
        show (if u = newV ∨ g.comp u ∈ wired.map g.comp then newV else g.comp u)
          = g.comp u
        rw [if_neg (by rintro (h | h); exacts [hune h, hcu h])]
      have hcune : g.comp u ≠ newV := fun h => hnew (h ▸ hcompmem u huv)
      have hwmem : g.comp u ∈ (wired ++ [u]).map g.comp := by
        rw [List.map_append]
        exact List.mem_append_right _ (by simp)
      rw [if_neg (by
          rw [connWired_hasEdge g newV qsid qst wired hedges hnew u hune]
          simp [hu]),
        if_neg (by rw [hcompu, hcompn]; exact hcune)]
      have hstep : (connWired g newV qsid qst wired).addEdge newV u
          EdgeType.eConnectivity = connWired g newV qsid qst (wired ++ [u]) := by
        unfold SG.addEdge
        rw [if_neg (by
          push_neg
          refine ⟨Ne.symm hune, ?_⟩
          rw [connWired_hasEdge g newV qsid qst wired hedges hnew u hune]
          simp [hu])]
        apply SG.ext
        · rfl
        · rfl
        · rfl
        · rfl
        · show (g.edges ++ wired.map (fun w => (newV, w, EdgeType.eConnectivity)))
              ++ [(newV, u, EdgeType.eConnectivity)]
            = g.edges ++ (wired ++ [u]).map (fun w => (newV, w, EdgeType.eConnectivity))
          simp
        · rfl
        · rfl
        · funext x
          show (if (connWired g newV qsid qst wired).comp x
              = (connWired g newV qsid qst wired).comp u then
                (connWired g newV qsid qst wired).comp newV
              else (connWired g newV qsid qst wired).comp x)
            = (connWired g newV qsid qst (wired ++ [u])).comp x
          rw [hcompu, hcompn]
          by_cases hx : x = newV
          · have hcwx : (connWired g newV qsid qst wired).comp x = newV := by
              rw [hx]; exact hcompn
            rw [hcwx, if_neg (Ne.symm hcune)]
            show newV = (if x = newV ∨ g.comp x ∈ (wired ++ [u]).map g.comp
              then newV else g.comp x)
            rw [if_pos (Or.inl hx)]
          · by_cases hcx : g.comp x ∈ wired.map g.comp
            · have h1 : (connWired g newV qsid qst wired).comp x = newV := by
                show (if x = newV ∨ g.comp x ∈ wired.map g.comp then newV
                  else g.comp x) = newV
                rw [if_pos (Or.inr hcx)]
              rw [h1, if_neg (Ne.symm hcune)]
              show newV = (if x = newV ∨ g.comp x ∈ (wired ++ [u]).map g.comp
                then newV else g.comp x)
              rw [if_pos (Or.inr (by
                rw [List.map_append]
                exact List.mem_append_left _ hcx))]
            · have h1 : (connWired g newV qsid qst wired).comp x = g.comp x := by
                show (if x = newV ∨ g.comp x ∈ wired.map g.comp then newV
                  else g.comp x) = g.comp x
                rw [if_neg (by rintro (h | h); exacts [hx h, hcx h])]
              rw [h1]
              show (if g.comp x = g.comp u then newV else g.comp x)
                = (if x = newV ∨ g.comp x ∈ (wired ++ [u]).map g.comp then newV
                  else g.comp x)
              by_cases hxx : g.comp x = g.comp u
              · rw [if_pos hxx, if_pos (Or.inr (hxx ▸ hwmem))]
              · rw [if_neg hxx, if_neg (by
                  rintro (h | h)
                  · exact hx h
                  · rw [List.map_append] at h
                    rcases List.mem_append.mp h with h | h
                    · exact hcx h
                    · simp at h
                      exact hxx h)]
      rw [hstep, ih (wired ++ [u]) hrest (by
        intro w hw
        rcases List.mem_append.mp hw with h | h
        · exact hwired w h
        · simp at h
          exact h ▸ huv), wireSelect_cons, if_neg hcu]

theorem connWired_outNeighbors {α : Type} (g : SG α) (newV qsid : Nat) (qst : α)
    (W : List Nat) (hnew : newV ∉ g.verts)
    (hedges : ∀ e ∈ g.edges, e.1 ∈ g.verts ∧ e.2.1 ∈ g.verts) :
    (connWired g newV qsid qst W).outNeighbors newV = W := by
  show (g.edges ++ W.map (fun w => (newV, w, EdgeType.eConnectivity))).filterMap
      (fun e => if e.1 = newV then some e.2.1
        else if e.2.1 = newV then some e.1 else none)
    = W
  rw [List.filterMap_append]
  have h1 : g.edges.filterMap (fun e => if e.1 = newV then some e.2.1
      else if e.2.1 = newV then some e.1 else none) = [] := by
    rw [List.filterMap_eq_nil_iff]
    intro e he
    have hv := hedges e he
    have hne1 : e.1 ≠ newV := fun h => hnew (h ▸ hv.1)
    have hne2 : e.2.1 ≠ newV := fun h => hnew (h ▸ hv.2)
    rw [if_neg hne1, if_neg hne2]
  have h2 : (W.map (fun w => (newV, w, EdgeType.eConnectivity))).filterMap
      (fun e => if e.1 = newV then some e.2.1
        else if e.2.1 = newV then some e.1 else none) = W := by
    rw [List.filterMap_map]
    have : ∀ w ∈ W, ((fun e : Nat × Nat × EdgeType =>
        if e.1 = newV then some e.2.1 else if e.2.1 = newV then some e.1 else none)
          ∘ (fun w => (newV, w, EdgeType.eConnectivity))) w = some w := by
      intro w _
      simp
    rw [List.filterMap_congr this]
    simp
  rw [h1, h2]
  rfl

theorem list_toFinset_map (l : List Nat) (f : Nat → Nat) :
    (l.map f).toFinset = l.toFinset.image f := by
  apply Finset.ext
  intro x
  simp [List.mem_toFinset, List.mem_map, Finset.mem_image]

theorem connWired_count {α : Type} (g : SG α) (newV qsid : Nat) (qst : α)
    (W vs : List Nat) (hnew : newV ∉ g.verts)
    (hcompmem : ∀ u ∈ g.verts, g.comp u ∈ g.verts)
    (hWclasses : ∀ x, x ∈ W.map g.comp ↔ x ∈ vs.map g.comp)
    (hsub : ∀ u ∈ vs, u ∈ g.verts)
    (hk : 2 ≤ (vs.map g.comp).dedup.length) :
    disjointSetCount (connWired g newV qsid qst W)
        + ((vs.map g.comp).dedup.length - 1)
      = disjointSetCount g := by
  have hAB : (vs.map g.comp).toFinset ⊆ (g.verts.map g.comp).toFinset := by
    intro x hx
    rw [List.mem_toFinset] at hx ⊢
    obtain ⟨u, hu, rfl⟩ := List.mem_map.mp hx
    exact List.mem_map.mpr ⟨u, hsub u hu, rfl⟩
  have hnB : newV ∉ (g.verts.map g.comp).toFinset := by
    rw [List.mem_toFinset]
    intro hx
    obtain ⟨u, hu, hcu⟩ := List.mem_map.mp hx
    exact hnew (hcu ▸ hcompmem u hu)
  have hAcard : ((vs.map g.comp).toFinset).card = (vs.map g.comp).dedup.length :=
    List.card_toFinset _
  have hBcard : ((g.verts.map g.comp).toFinset).card = disjointSetCount g :=
    List.card_toFinset _
  have hAne : ((vs.map g.comp).toFinset).Nonempty := by
    rw [← Finset.card_pos, hAcard]
    omega
  have hlist : (connWired g newV qsid qst W).verts.map
      (connWired g newV qsid qst W).comp
      = (g.verts.map g.comp).map
          (fun y => if y ∈ (vs.map g.comp).toFinset then newV else y) ++ [newV] := by
    show (g.verts ++ [newV]).map (connWired g newV qsid qst W).comp = _
    rw [List.map_append, List.map_map]
    congr 1
    · refine List.map_congr_left ?_
      intro u hu
      have hune : u ≠ newV := fun h => hnew (h ▸ hu)
      show (if u = newV ∨ g.comp u ∈ W.map g.comp then newV else g.comp u) = _
      by_cases hcu : g.comp u ∈ (vs.map g.comp).toFinset
      · rw [if_pos (Or.inr ((hWclasses _).mpr (List.mem_toFinset.mp hcu)))]
        simp only [Function.comp]
        rw [if_pos hcu]
      · rw [if_neg (by
          rintro (h | h)
          · exact hune h
          · exact hcu (List.mem_toFinset.mpr ((hWclasses _).mp h)))]
        simp only [Function.comp]
        rw [if_neg hcu]
    · show [(connWired g newV qsid qst W).comp newV] = [newV]
      congr 1
      show (if newV = newV ∨ g.comp newV ∈ W.map g.comp then newV else g.comp newV)
        = newV
      rw [if_pos (Or.inl rfl)]
  have himage : ((g.verts.map g.comp).toFinset).image
      (fun y => if y ∈ (vs.map g.comp).toFinset then newV else y)
      = ((g.verts.map g.comp).toFinset \ (vs.map g.comp).toFinset) ∪ {newV} := by
    apply Finset.ext
    intro x
    rw [Finset.mem_image, Finset.mem_union, Finset.mem_sdiff, Finset.mem_singleton]
    constructor
    · rintro ⟨y, hy, rfl⟩
      by_cases hyA : y ∈ (vs.map g.comp).toFinset
      · rw [if_pos hyA]; exact Or.inr rfl
      · rw [if_neg hyA]; exact Or.inl ⟨hy, hyA⟩
    · rintro (⟨hxB, hxA⟩ | rfl)
      · exact ⟨x, hxB, by rw [if_neg hxA]⟩
      · obtain ⟨a, ha⟩ := hAne
        exact ⟨a, hAB ha, by rw [if_pos ha]⟩
  have hfinal : disjointSetCount (connWired g newV qsid qst W)
      = ((g.verts.map g.comp).toFinset \ (vs.map g.comp).toFinset).card + 1 := by
    rw [disjointSetCount, ← List.card_toFinset, hlist, List.toFinset_append,
      list_toFinset_map, himage]
    have : ([newV] : List Nat).toFinset = {newV} := rfl
    rw [this, Finset.union_assoc, Finset.union_idempotent]
    rw [Finset.card_union_of_disjoint (by
      rw [Finset.disjoint_singleton_right, Finset.mem_sdiff]
      intro h
      exact hnB h.1)]
    rfl
  rw [hfinal, Finset.card_sdiff hAB, hAcard, hBcard]
  have h1 : (vs.map g.comp).toFinset.card ≤ (g.verts.map g.comp).toFinset.card :=
    Finset.card_le_card hAB
  rw [hAcard, hBcard] at h1
  omega

/-- C4: when the Connectivity criterion inserts a candidate whose visible
neighbors span k ≥ 2 disjoint-set components (with the close-vertex
replacement step disabled, the neighbors live with states distinct from
the candidate's, and a well-formed graph), the new vertex is wired to
exactly one representative of each participating component — vertices
already unified into the new vertex's component by earlier edges of the
same loop are skipped — and `disjoint_set_count` decreases by exactly
k - 1 relative to its value immediately before the insertion. -/
theorem checkAddConnectivity_spec {α : Type} (cfg : RCfg) (d : α → α → ℚ)
    (motion : α → α → Bool) (stEq : α → α → Bool) (g : SG α) (qsid : Nat)
    (qst : α) (vs : List Nat)
    (hflag : cfg.useCheckRemoveCloseVertices = false)
    (hsub : ∀ u ∈ vs, u ∈ g.verts)
    (hlive : ∀ u ∈ vs, g.stateID u ≠ 0)
    (hst : ∀ u ∈ vs, stEq (g.vstate u) qst = false)
    (hcompmem : ∀ u ∈ g.verts, g.comp u ∈ g.verts)
    (hedges : ∀ e ∈ g.edges, e.1 ∈ g.verts ∧ e.2.1 ∈ g.verts)
    (hk : 2 ≤ (vs.map g.comp).dedup.length) :
    rcvFlag (checkAddConnectivity cfg d motion stEq g qsid qst vs) g = true
      ∧ disjointSetCount
            (rcvGraph (checkAddConnectivity cfg d motion stEq g qsid qst vs) g)
          + ((vs.map g.comp).dedup.length - 1)
        = disjointSetCount g
      ∧ (((rcvGraph (checkAddConnectivity cfg d motion stEq g qsid qst vs)
            g).outNeighbors (freshId g)).map g.comp).Nodup
      ∧ ∀ x, x ∈ ((rcvGraph (checkAddConnectivity cfg d motion stEq g qsid qst vs)
            g).outNeighbors (freshId g)).map g.comp
          ↔ x ∈ vs.map g.comp := by
  have hnew : freshId g ∉ g.verts := freshId_not_mem g
  have hlen : ¬ (vs.length < 2) := by
    have h1 : (vs.map g.comp).dedup.length ≤ (vs.map g.comp).length :=
      List.Sublist.length_le (List.dedup_sublist _)
    rw [List.length_map] at h1
    omega
  have hmemDS : ∀ u, u ∈ diffComponentSet g.comp vs ↔ u ∈ vs := by
    intro u
    rw [mem_diffComponentSet, mem_diffPairMembers]
    constructor
    · exact fun h => h.1
    · exact fun hu => ⟨hu, exists_partner g.comp vs hk u hu⟩
  have hDSne : (diffComponentSet g.comp vs).isEmpty = false := by
    have hvs : vs ≠ [] := by
      intro h
      rw [h] at hk
      simp at hk
    obtain ⟨v, hv⟩ := List.exists_mem_of_ne_nil vs hvs
    have hvds : v ∈ diffComponentSet g.comp vs := (hmemDS v).mpr hv
    cases hds : diffComponentSet g.comp vs with
    | nil => rw [hds] at hvds; simp at hvds
    | cons a l => rfl
  have hrcv : checkRemoveCloseVertices cfg d motion
      (g.addVertex (freshId g) qsid qst VertexType.connectivity) (freshId g)
      = some (g.addVertex (freshId g) qsid qst VertexType.connectivity, false) := by
    unfold checkRemoveCloseVertices
    rw [if_pos hflag]
  have hL : ∀ u ∈ diffComponentSet g.comp vs,
      u ∈ g.verts ∧ g.stateID u ≠ 0 ∧ stEq (g.vstate u) qst = false := by
    intro u hu
    have huv := (hmemDS u).mp hu
    exact ⟨hsub u huv, hlive u huv, hst u huv⟩
  have hfold := connWire_go g stEq qsid qst (freshId g) hnew hedges hcompmem
    (diffComponentSet g.comp vs) [] hL (by simp)
  rw [connWired_nil] at hfold
  have hrun : checkAddConnectivity cfg d motion stEq g qsid qst vs
      = some (connWired g (freshId g) qsid qst
          (wireSelect g.comp (diffComponentSet g.comp vs) []), true) := by
    unfold checkAddConnectivity
    rw [if_neg hlen, if_neg (by rw [hDSne]; exact Bool.false_ne_true), hrcv]
    dsimp only
    rw [hfold]
  rw [hrun]
  have hWclasses : ∀ x,
      x ∈ (wireSelect g.comp (diffComponentSet g.comp vs) []).map g.comp
        ↔ x ∈ vs.map g.comp := by
    intro x
    rw [wireSelect_classes]
    simp only [List.map_nil, List.not_mem_nil, false_or]
    constructor
    · intro h
      obtain ⟨u, hu, rfl⟩ := List.mem_map.mp h
      exact List.mem_map.mpr ⟨u, (hmemDS u).mp hu, rfl⟩
    · intro h
      obtain ⟨u, hu, rfl⟩ := List.mem_map.mp h
      exact List.mem_map.mpr ⟨u, (hmemDS u).mpr hu, rfl⟩
  have houtn : (connWired g (freshId g) qsid qst
      (wireSelect g.comp (diffComponentSet g.comp vs) [])).outNeighbors (freshId g)
      = wireSelect g.comp (diffComponentSet g.comp vs) [] :=
    connWired_outNeighbors g (freshId g) qsid qst _ hnew hedges
  refine ⟨rfl, ?_, ?_, ?_⟩
  · exact connWired_count g (freshId g) qsid qst _ vs hnew hcompmem hWclasses hsub hk
  · show (((connWired g (freshId g) qsid qst
        (wireSelect g.comp (diffComponentSet g.comp vs) [])).outNeighbors
          (freshId g)).map g.comp).Nodup
    rw [houtn]
    exact wireSelect_nodup g.comp (diffComponentSet g.comp vs) [] (by simp)
  · intro x
    show x ∈ ((connWired g (freshId g) qsid qst
        (wireSelect g.comp (diffComponentSet g.comp vs) [])).outNeighbors
          (freshId g)).map g.comp ↔ x ∈ vs.map g.comp
    rw [houtn]
    exact hWclasses x

/-- C4 witness: two isolated vertices 1 and 2 as visible neighborhood; the
connectivity insertion merges both singleton classes into the new vertex
3's class, and the disjoint-set count drops from 2 to 1 = 2 - (k - 1). -/
theorem checkAddConnectivity_spec_witness :
    disjointSetCount (rcvGraph (checkAddConnectivity ⟨false, 0⟩
          (fun _ _ : Nat => (0 : ℚ)) (fun _ _ => true) (fun a b => a == b)
          ⟨[1, 2], fun x => x, fun x => x, fun _ => VertexType.coverage, [],
            fun _ => [], [1, 2], fun x => x⟩ 5 99 [1, 2])
        ⟨[1, 2], fun x => x, fun x => x, fun _ => VertexType.coverage, [],
          fun _ => [], [1, 2], fun x => x⟩)
        + (([1, 2].map (SG.comp ⟨[1, 2], fun x => x, fun x => x,
            fun _ => VertexType.coverage, [], fun _ => [], [1, 2],
            fun x => x⟩)).dedup.length - 1)
      = disjointSetCount (⟨[1, 2], fun x => x, fun x => x,
          fun _ => VertexType.coverage, [], fun _ => [], [1, 2],
          fun x => x⟩ : SG Nat) :=
  (checkAddConnectivity_spec ⟨false, 0⟩ (fun _ _ : Nat => (0 : ℚ))
    (fun _ _ => true) (fun a b => a == b)
    ⟨[1, 2], fun x => x, fun x => x, fun _ => VertexType.coverage, [],
      fun _ => [], [1, 2], fun x => x⟩ 5 99 [1, 2]
    rfl (by decide) (by decide) (by decide) (by decide) (by decide)
    (by decide)).2.1

end Bolt
